import Mathlib

/-!
Verification of the nostr repository's subscription-filter, coordinate,
subscription-id and relay-options code.

The development shallowly embeds the Rust sources:

* `crates/nostr/src/message/subscription.rs` — `SingleLetterTag`,
  `SubscriptionId`, `GenericTagValue`, `Filter` and its custom JSON
  (de)serializers `serialize_generic_tags` / `deserialize_generic_tags`;
* `crates/nostr/src/nips/nip01.rs` — `Coordinate`, its `FromStr` parser and
  its conversion to `Filter`;
* `crates/nostr-sdk/src/relay/options.rs` — `RelayOptions` retry fields.

Machine integers become `Nat` (with explicit bounds where overflow could
matter), Rust `HashSet`/`BTreeSet` becomes `Finset` (Rust set equality is
set equality), the `BTreeMap` of generic tags becomes a function
`SingleLetterTag → Option (Finset GenericTagValue)` (present key with empty
value set is distinct from absent key, as in the source), and serde's JSON
layer is modelled on a JSON tree type: a `Filter` serializes to an ordered
list of string-keyed fields and deserializes from such a list, `none`
modelling a serde error.

External collaborators called by the source are embedded concretely:
SHA-256 (bitcoin_hashes) is implemented in full, and x-only public-key
validity (secp256k1 `lift_x`) is the real curve check, computed with a
modular exponentiation so that every definition evaluates by kernel
reduction.
-/

set_option maxRecDepth 8000
set_option maxHeartbeats 1000000

namespace Nostr

/-! ### Hexadecimal strings

Canonical hex form used by `EventId` and `XOnlyPublicKey`: encoding is
lowercase, decoding accepts both cases (as the hex parsers of the
underlying libraries do). -/

/-- The sixteen lowercase hex digit characters, in value order: the ten
decimal digits followed by the letters `a` to `f`. -/
def hexDigits : List Char :=
  (List.range 10).map (fun d => Char.ofNat (48 + d)) ++
    (List.range 6).map (fun d => Char.ofNat (97 + d))

/-- Lowercase hex digit of a value below 16. -/
def hexCharOfNat (n : Nat) : Char := hexDigits.getD n '0'

/-- Value of a hex digit character, upper or lower case. -/
def decodeHexChar (c : Char) : Option Nat :=
  let n := c.toNat
  if 48 ≤ n ∧ n ≤ 57 then some (n - 48)
  else if 97 ≤ n ∧ n ≤ 102 then some (n - 87)
  else if 65 ≤ n ∧ n ≤ 70 then some (n - 55)
  else none

/-- Big-endian fixed-width hex encoding: `encodeHexPad k n` are the `k`
lowercase hex digits of `n % 16^k`. -/
def encodeHexPad : Nat → Nat → List Char
  | 0, _ => []
  | k + 1, n => encodeHexPad k (n / 16) ++ [hexCharOfNat (n % 16)]

/-- The 64-character lowercase hex string of a 256-bit value, the canonical
string form of `EventId` and `XOnlyPublicKey`. -/
def hex64 (n : Nat) : String := ⟨encodeHexPad 64 n⟩

/-- Left-to-right hex decoding accumulator. -/
def decodeHexCharsAux : Nat → List Char → Option Nat
  | acc, [] => some acc
  | acc, c :: cs =>
    match decodeHexChar c with
    | some d => decodeHexCharsAux (acc * 16 + d) cs
    | none => none

/-- Decode a string of exactly 64 hex characters to its value; `none`
otherwise.  This is the acceptance condition shared by the 32-byte hex
parsers (`EventId::from_hex`, the hex layer of `XOnlyPublicKey::from_str`). -/
def decodeHex64 (s : String) : Option Nat :=
  if s.length = 64 then decodeHexCharsAux 0 s.data else none

theorem decodeHexChar_hexCharOfNat : ∀ d < 16, decodeHexChar (hexCharOfNat d) = some d := by
  decide

theorem encodeHexPad_length (k : Nat) : ∀ n, (encodeHexPad k n).length = k := by
  induction k with
  | zero => intro n; rfl
  | succ k ih =>
    intro n
    simp [encodeHexPad, ih]

theorem mem_encodeHexPad_hexDigits (k : Nat) :
    ∀ n, ∀ c ∈ encodeHexPad k n, c ∈ hexDigits := by
  induction k with
  | zero => intro n c hc; simp [encodeHexPad] at hc
  | succ k ih =>
    intro n c hc
    simp only [encodeHexPad, List.mem_append, List.mem_singleton] at hc
    rcases hc with hc | hc
    · exact ih _ c hc
    · subst hc
      have h16 : n % 16 < 16 := Nat.mod_lt _ (by norm_num)
      have : ∀ d < 16, hexCharOfNat d ∈ hexDigits := by decide
      exact this _ h16

theorem decodeHexCharsAux_append (l1 l2 : List Char) :
    ∀ acc, decodeHexCharsAux acc (l1 ++ l2) =
      match decodeHexCharsAux acc l1 with
      | some a => decodeHexCharsAux a l2
      | none => none := by
  induction l1 with
  | nil => intro acc; rfl
  | cons c cs ih =>
    intro acc
    simp only [List.cons_append, decodeHexCharsAux]
    cases decodeHexChar c with
    | none => rfl
    | some d => exact ih _

theorem decodeHexCharsAux_encodeHexPad (k : Nat) :
    ∀ n acc, n < 16 ^ k →
      decodeHexCharsAux acc (encodeHexPad k n) = some (acc * 16 ^ k + n) := by
  induction k with
  | zero =>
    intro n acc hn
    interval_cases n
    simp [encodeHexPad, decodeHexCharsAux]
  | succ k ih =>
    intro n acc hn
    have hdiv : n / 16 < 16 ^ k := by
      rw [Nat.div_lt_iff_lt_mul (by norm_num)]
      calc n < 16 ^ (k + 1) := hn
        _ = 16 ^ k * 16 := by ring
    rw [encodeHexPad, decodeHexCharsAux_append, ih (n / 16) acc hdiv]
    have h16 : n % 16 < 16 := Nat.mod_lt _ (by norm_num)
    simp only [decodeHexCharsAux, decodeHexChar_hexCharOfNat _ h16]
    congr 1
    have := Nat.div_add_mod n 16
    ring_nf
    omega

theorem decodeHex64_hex64 (n : Nat) (hn : n < 2 ^ 256) : decodeHex64 (hex64 n) = some n := by
  have hlen : (hex64 n).length = 64 := by
    simp [hex64, String.length, encodeHexPad_length]
  have hn' : n < 16 ^ 64 := by norm_num at hn ⊢; exact hn
  rw [decodeHex64, if_pos hlen]
  have := decodeHexCharsAux_encodeHexPad 64 n 0 hn'
  simpa [hex64] using this

/-! ### secp256k1 x-only public key validity

`XOnlyPublicKey::from_str` hex-decodes 32 bytes and runs `lift_x`: with
field prime `P`, a coordinate `x < P` is valid when `w := x³ + 7 mod P`
has the square root candidate `y := w^((P+1)/4) mod P` with `y² ≡ w`. -/

/-- Fuel-driven square-and-multiply modular exponentiation (structural
recursion so that it evaluates by kernel reduction). -/
def powModFuel (m : Nat) : Nat → Nat → Nat → Nat
  | 0, _, _ => 1 % m
  | fuel + 1, b, e =>
    if e = 0 then 1 % m
    else
      let h := powModFuel m fuel b (e / 2)
      if e % 2 = 0 then h * h % m else h * h % m * (b % m) % m

/-- Modular exponentiation `b ^ e mod m`. -/
def powMod (b e m : Nat) : Nat := powModFuel m (e + 1) b e

/-- The secp256k1 field prime. -/
def secpP : Nat := 2 ^ 256 - 2 ^ 32 - 977

/-- Whether `x` is the x-coordinate of a point on secp256k1, as decided by
`lift_x` inside `XOnlyPublicKey` parsing and deserialization. -/
def isValidXOnly (x : Nat) : Bool :=
  decide (x < secpP) &&
    (let w := ((x * x % secpP) * x % secpP + 7) % secpP
     let y := powMod w ((secpP + 1) / 4) secpP
     y * y % secpP == w)

/-! ### SHA-256 (bitcoin_hashes `sha256::Hash`)

Used by `SubscriptionId::generate_with_rng`.  Bytes are `Nat` values below
256, words are `Nat` values below 2^32 kept in range with explicit `%`. -/

/-- Rotate a 32-bit word right by `n` bits. -/
def rotr32 (n x : Nat) : Nat := (x >>> n) + (x % 2 ^ n) * 2 ^ (32 - n)

/-- Round constants. -/
def shaK : List Nat :=
  [1116352408, 1899447441, 3049323471, 3921009573, 961987163, 1508970993,
   2453635748, 2870763221, 3624381080, 310598401, 607225278, 1426881987,
   1925078388, 2162078206, 2614888103, 3248222580, 3835390401, 4022224774,
   264347078, 604807628, 770255983, 1249150122, 1555081692, 1996064986,
   2554220882, 2821834349, 2952996808, 3210313671, 3336571891, 3584528711,
   113926993, 338241895, 666307205, 773529912, 1294757372, 1396182291,
   1695183700, 1986661051, 2177026350, 2456956037, 2730485921, 2820302411,
   3259730800, 3345764771, 3516065817, 3600352804, 4094571909, 275423344,
   430227734, 506948616, 659060556, 883997877, 958139571, 1322822218,
   1537002063, 1747873779, 1955562222, 2024104815, 2227730452, 2361852424,
   2428436474, 2756734187, 3204031479, 3329325298]

/-- Working state: eight 32-bit registers. -/
structure Sha256State where
  r0 : Nat
  r1 : Nat
  r2 : Nat
  r3 : Nat
  r4 : Nat
  r5 : Nat
  r6 : Nat
  r7 : Nat

/-- Initial hash state. -/
def shaInit : Sha256State :=
  ⟨1779033703, 3144134277, 1013904242, 2773480762, 1359893119, 2600822924, 528734635, 1541459225⟩

/-- Big-endian bytes of width `k` for a value (most significant first). -/
def natToBytesBE : Nat → Nat → List Nat
  | 0, _ => []
  | k + 1, n => natToBytesBE k (n / 256) ++ [n % 256]

/-- Merkle–Damgård padding: append `0x80`, zero bytes to 56 mod 64, and the
bit length as eight big-endian bytes. -/
def padMessage (msg : List Nat) : List Nat :=
  let zeros := (64 - (msg.length + 9) % 64) % 64
  msg ++ [0x80] ++ List.replicate zeros 0 ++ natToBytesBE 8 (msg.length * 8)

/-- Group bytes into big-endian 32-bit words. -/
def toWords : List Nat → List Nat
  | b0 :: b1 :: b2 :: b3 :: rest => (((b0 * 256 + b1) * 256 + b2) * 256 + b3) :: toWords rest
  | _ => []

/-- Split a byte list into 64-byte blocks (fuel keeps the recursion
structural). -/
def toBlocksFuel : Nat → List Nat → List (List Nat)
  | 0, _ => []
  | _ + 1, [] => []
  | fuel + 1, bs => bs.take 64 :: toBlocksFuel fuel (bs.drop 64)

/-- Split a byte list into 64-byte blocks. -/
def toBlocks (bs : List Nat) : List (List Nat) := toBlocksFuel bs.length bs

/-- Message schedule extension step count is 48; each step appends one word. -/
def extendSchedule : Nat → List Nat → List Nat
  | 0, w => w
  | fuel + 1, w =>
    let s0 :=
      let x := w.getD (w.length - 15) 0
      rotr32 7 x ^^^ rotr32 18 x ^^^ (x >>> 3)
    let s1 :=
      let x := w.getD (w.length - 2) 0
      rotr32 17 x ^^^ rotr32 19 x ^^^ (x >>> 10)
    let n := (s1 + w.getD (w.length - 7) 0 + s0 + w.getD (w.length - 16) 0) % 2 ^ 32
    extendSchedule fuel (w ++ [n])

/-- The 64-word message schedule of one block. -/
def schedule (block : List Nat) : List Nat := extendSchedule 48 (toWords block)

/-- One compression round. -/
def roundStep (s : Sha256State) (kw : Nat × Nat) : Sha256State :=
  let e := s.r4
  let bigS1 := rotr32 6 e ^^^ rotr32 11 e ^^^ rotr32 25 e
  let ch := (e &&& s.r5) ^^^ ((e ^^^ 0xffffffff) &&& s.r6)
  let t1 := (s.r7 + bigS1 + ch + kw.1 + kw.2) % 2 ^ 32
  let a := s.r0
  let bigS0 := rotr32 2 a ^^^ rotr32 13 a ^^^ rotr32 22 a
  let maj := (a &&& s.r1) ^^^ (a &&& s.r2) ^^^ (s.r1 &&& s.r2)
  let t2 := (bigS0 + maj) % 2 ^ 32
  ⟨(t1 + t2) % 2 ^ 32, s.r0, s.r1, s.r2, (s.r3 + t1) % 2 ^ 32, s.r4, s.r5, s.r6⟩

/-- Compress one 64-byte block into the state. -/
def compressBlock (st : Sha256State) (block : List Nat) : Sha256State :=
  let w := (shaK.zip (schedule block)).foldl roundStep st
  ⟨(st.r0 + w.r0) % 2 ^ 32, (st.r1 + w.r1) % 2 ^ 32, (st.r2 + w.r2) % 2 ^ 32,
   (st.r3 + w.r3) % 2 ^ 32, (st.r4 + w.r4) % 2 ^ 32, (st.r5 + w.r5) % 2 ^ 32,
   (st.r6 + w.r6) % 2 ^ 32, (st.r7 + w.r7) % 2 ^ 32⟩

/-- The SHA-256 digest of a byte message, as 32 bytes. -/
def sha256 (msg : List Nat) : List Nat :=
  let fin := (toBlocks (padMessage msg)).foldl compressBlock shaInit
  natToBytesBE 4 fin.r0 ++ natToBytesBE 4 fin.r1 ++ natToBytesBE 4 fin.r2 ++
    natToBytesBE 4 fin.r3 ++ natToBytesBE 4 fin.r4 ++ natToBytesBE 4 fin.r5 ++
    natToBytesBE 4 fin.r6 ++ natToBytesBE 4 fin.r7

theorem natToBytesBE_length (k : Nat) : ∀ n, (natToBytesBE k n).length = k := by
  induction k with
  | zero => intro n; rfl
  | succ k ih => intro n; simp [natToBytesBE, ih]

theorem sha256_length (msg : List Nat) : (sha256 msg).length = 32 := by
  simp [sha256, natToBytesBE_length]

/-- Lowercase hex rendering of a byte list; `bitcoin_hashes` displays a
sha256 digest this way (forward byte order). -/
def hexOfBytes (bs : List Nat) : String := ⟨bs.flatMap (fun b => encodeHexPad 2 b)⟩

theorem flatMapHex_length (bs : List Nat) :
    (bs.flatMap (fun b => encodeHexPad 2 b)).length = 2 * bs.length := by
  induction bs with
  | nil => rfl
  | cons b bs ih =>
    simp only [List.flatMap_cons, List.length_append, encodeHexPad_length, List.length_cons, ih]
    omega

theorem hexOfBytes_length (bs : List Nat) : (hexOfBytes bs).length = 2 * bs.length := by
  simpa [hexOfBytes, String.length] using flatMapHex_length bs

/-! ### JSON values

Only the shapes the filter codec touches are needed: strings, unsigned
numbers and arrays.  A JSON object is a list of string-keyed fields, which
is how both custom (de)serializers of the source see it through serde's
`SerializeMap`/`MapAccess`. -/

/-- A JSON value. -/
inductive Json
  | str (s : String)
  | num (n : Nat)
  | arr (xs : List Json)

mutual

/-- Boolean equality of JSON values. -/
def Json.beq : Json → Json → Bool
  | .str a, .str b => a == b
  | .num a, .num b => a == b
  | .arr a, .arr b => Json.beqList a b
  | _, _ => false

/-- Boolean equality of JSON value lists. -/
def Json.beqList : List Json → List Json → Bool
  | [], [] => true
  | a :: as, b :: bs => Json.beq a b && Json.beqList as bs
  | _, _ => false

end

mutual

theorem Json.beq_iff : ∀ a b : Json, (Json.beq a b = true) ↔ a = b
  | .str a, .str b => by simp [Json.beq]
  | .str _, .num _ => by simp [Json.beq]
  | .str _, .arr _ => by simp [Json.beq]
  | .num _, .str _ => by simp [Json.beq]
  | .num a, .num b => by simp [Json.beq]
  | .num _, .arr _ => by simp [Json.beq]
  | .arr _, .str _ => by simp [Json.beq]
  | .arr _, .num _ => by simp [Json.beq]
  | .arr a, .arr b => by
    simp only [Json.beq, Json.arr.injEq]
    exact Json.beqList_iff a b

theorem Json.beqList_iff : ∀ a b : List Json, (Json.beqList a b = true) ↔ a = b
  | [], [] => by simp [Json.beqList]
  | [], _ :: _ => by simp [Json.beqList]
  | _ :: _, [] => by simp [Json.beqList]
  | a :: as, b :: bs => by
    simp only [Json.beqList, Bool.and_eq_true, List.cons.injEq]
    exact and_congr (Json.beq_iff a b) (Json.beqList_iff as bs)

end

instance : DecidableEq Json := fun a b => decidable_of_iff _ (Json.beq_iff a b)

/-! ### Alphabet and SingleLetterTag (subscription.rs) -/

/-- The 26 letters, as in the source enum. -/
inductive Alphabet
  | A | B | C | D | E | F | G | H | I | J | K | L | M
  | N | O | P | Q | R | S | T | U | V | W | X | Y | Z
deriving DecidableEq, Fintype

/-- Single-letter tag: a letter plus its case. -/
structure SingleLetterTag where
  character : Alphabet
  uppercase : Bool
deriving DecidableEq, Fintype

/-- Compose a new lowercase single-letter tag. -/
def SingleLetterTag.lowercase (character : Alphabet) : SingleLetterTag :=
  ⟨character, false⟩

/-- Compose a new uppercase single-letter tag. -/
def SingleLetterTag.uppercase' (character : Alphabet) : SingleLetterTag :=
  ⟨character, true⟩

/-- Parse a single-letter tag from a character (`SingleLetterTag::from_char`);
`none` models the `InvalidChar` error. -/
def SingleLetterTag.fromChar (c : Char) : Option SingleLetterTag :=
  let character : Option Alphabet :=
    match c with
    | 'a' | 'A' => some .A
    | 'b' | 'B' => some .B
    | 'c' | 'C' => some .C
    | 'd' | 'D' => some .D
    | 'e' | 'E' => some .E
    | 'f' | 'F' => some .F
    | 'g' | 'G' => some .G
    | 'h' | 'H' => some .H
    | 'i' | 'I' => some .I
    | 'j' | 'J' => some .J
    | 'k' | 'K' => some .K
    | 'l' | 'L' => some .L
    | 'm' | 'M' => some .M
    | 'n' | 'N' => some .N
    | 'o' | 'O' => some .O
    | 'p' | 'P' => some .P
    | 'q' | 'Q' => some .Q
    | 'r' | 'R' => some .R
    | 's' | 'S' => some .S
    | 't' | 'T' => some .T
    | 'u' | 'U' => some .U
    | 'v' | 'V' => some .V
    | 'w' | 'W' => some .W
    | 'x' | 'X' => some .X
    | 'y' | 'Y' => some .Y
    | 'z' | 'Z' => some .Z
    | _ => none
  character.map (fun ch => ⟨ch, c.isUpper⟩)

/-- Render a single-letter tag as its character (`SingleLetterTag::as_char`). -/
def SingleLetterTag.asChar (t : SingleLetterTag) : Char :=
  if t.uppercase then
    match t.character with
    | .A => 'A' | .B => 'B' | .C => 'C' | .D => 'D' | .E => 'E' | .F => 'F' | .G => 'G'
    | .H => 'H' | .I => 'I' | .J => 'J' | .K => 'K' | .L => 'L' | .M => 'M' | .N => 'N'
    | .O => 'O' | .P => 'P' | .Q => 'Q' | .R => 'R' | .S => 'S' | .T => 'T' | .U => 'U'
    | .V => 'V' | .W => 'W' | .X => 'X' | .Y => 'Y' | .Z => 'Z'
  else
    match t.character with
    | .A => 'a' | .B => 'b' | .C => 'c' | .D => 'd' | .E => 'e' | .F => 'f' | .G => 'g'
    | .H => 'h' | .I => 'i' | .J => 'j' | .K => 'k' | .L => 'l' | .M => 'm' | .N => 'n'
    | .O => 'o' | .P => 'p' | .Q => 'q' | .R => 'r' | .S => 's' | .T => 't' | .U => 'u'
    | .V => 'v' | .W => 'w' | .X => 'x' | .Y => 'y' | .Z => 'z'

/-- Wire key of a generic tag in a filter object, `#` followed by the
letter (the `Display` instance of `SingleLetterTag`). -/
def tagKeyStr (t : SingleLetterTag) : String := ⟨['#', t.asChar]⟩

/-- All 52 single-letter tags, in the derived `Ord` order of the source
struct (letter first, lowercase before uppercase), the iteration order of
the no-std `BTreeMap` of generic tags. -/
def allTags : List SingleLetterTag :=
  ([.A, .B, .C, .D, .E, .F, .G, .H, .I, .J, .K, .L, .M,
    .N, .O, .P, .Q, .R, .S, .T, .U, .V, .W, .X, .Y, .Z] : List Alphabet).flatMap
    (fun a => [⟨a, false⟩, ⟨a, true⟩])

theorem mem_allTags (t : SingleLetterTag) : t ∈ allTags := by
  rcases t with ⟨c, u⟩
  cases c <;> cases u <;> decide

theorem fromChar_asChar (t : SingleLetterTag) :
    SingleLetterTag.fromChar t.asChar = some t := by
  revert t
  decide

/-! ### SubscriptionId (subscription.rs) -/

/-- A subscription id wraps an arbitrary string; `SubscriptionId::new`
performs no validation. -/
structure SubscriptionId where
  val : String
deriving DecidableEq

/-- Create a new subscription id from any string. -/
def SubscriptionId.new (id : String) : SubscriptionId := ⟨id⟩

/-- Generate a random subscription id
(`SubscriptionId::generate_with_rng`): the RNG fills 32 bytes, they are
hashed with SHA-256, and the first 32 characters of the lowercase hex
digest become the id.  The RNG is modelled by the byte list it produces. -/
def SubscriptionId.generate_with_rng (osRandom : List Nat) : SubscriptionId :=
  let hash := hexOfBytes (sha256 osRandom)
  SubscriptionId.new ⟨hash.data.take 32⟩

/-! ### GenericTagValue (subscription.rs)

`Pubkey` carries the x coordinate of a valid x-only public key, `EventId`
a 256-bit digest value, `String` any string.  serde serializes the sum
untagged, so a value renders as its bare string form. -/

/-- A value of a generic tag query. -/
inductive GenericTagValue
  | pubkey (pk : Nat)
  | eventId (id : Nat)
  | str (s : String)
deriving DecidableEq

/-- String form of a value (the `Display` instance, which is also its
untagged serialization): hex for keys and ids, the string itself otherwise. -/
def GenericTagValue.render : GenericTagValue → String
  | .pubkey pk => hex64 pk
  | .eventId id => hex64 id
  | .str s => s

/-- Whether the value is the `Pubkey` variant. -/
def GenericTagValue.isPubkey : GenericTagValue → Bool
  | .pubkey _ => true
  | _ => false

/-- Whether the value is the `EventId` variant. -/
def GenericTagValue.isEventId : GenericTagValue → Bool
  | .eventId _ => true
  | _ => false

/-! A total order on values (variant rank, then payload), standing in for
the derived `Ord` of the source so that a set of values can be emitted as
a deterministic JSON array. -/

/-- Character-list comparison by code point. -/
def charsLe : List Char → List Char → Bool
  | [], _ => true
  | _ :: _, [] => false
  | a :: as, b :: bs =>
    Nat.blt a.toNat b.toNat || (a.toNat == b.toNat && charsLe as bs)

/-- Total comparison of generic tag values. -/
def GenericTagValue.leB : GenericTagValue → GenericTagValue → Bool
  | .pubkey x, .pubkey y => Nat.ble x y
  | .pubkey _, _ => true
  | .eventId _, .pubkey _ => false
  | .eventId x, .eventId y => Nat.ble x y
  | .eventId _, .str _ => true
  | .str s, .str t => charsLe s.data t.data
  | .str _, _ => false

/-- The comparison as a relation, for sorting. -/
def gtvLe (v w : GenericTagValue) : Prop := GenericTagValue.leB v w = true

instance : DecidableRel gtvLe := fun v w => by unfold gtvLe; infer_instance

theorem charsLe_total (l1 l2 : List Char) : charsLe l1 l2 = true ∨ charsLe l2 l1 = true := by
  induction l1 generalizing l2 with
  | nil => left; rfl
  | cons a as ih =>
    cases l2 with
    | nil => right; rfl
    | cons b bs =>
      rcases Nat.lt_trichotomy a.toNat b.toNat with h | h | h
      · left; simp [charsLe, Nat.blt_eq, h]
      · rcases ih bs with h2 | h2 <;> [left; right] <;> simp [charsLe, h, h2]
      · right; simp [charsLe, Nat.blt_eq, h]

theorem charsLe_trans (l1 l2 l3 : List Char) (h1 : charsLe l1 l2 = true)
    (h2 : charsLe l2 l3 = true) : charsLe l1 l3 = true := by
  induction l1 generalizing l2 l3 with
  | nil => rfl
  | cons a as ih =>
    cases l2 with
    | nil => simp [charsLe] at h1
    | cons b bs =>
      cases l3 with
      | nil => simp [charsLe] at h2
      | cons c cs =>
        simp only [charsLe, Bool.or_eq_true, Bool.and_eq_true, Nat.blt_eq, beq_iff_eq] at h1 h2 ⊢
        rcases h1 with h1 | ⟨hab, h1⟩ <;> rcases h2 with h2 | ⟨hbc, h2⟩
        · exact Or.inl (h1.trans h2)
        · exact Or.inl (hbc ▸ h1)
        · exact Or.inl (hab ▸ h2)
        · exact Or.inr ⟨hab.trans hbc, ih bs cs h1 h2⟩

theorem char_toNat_inj {a b : Char} (h : a.toNat = b.toNat) : a = b := by
  rcases a with ⟨⟨av, _⟩, _⟩
  rcases b with ⟨⟨bv, _⟩, _⟩
  simp only [Char.toNat, UInt32.toNat, BitVec.toNat] at h
  subst h
  rfl

theorem charsLe_antisymm (l1 l2 : List Char) (h1 : charsLe l1 l2 = true)
    (h2 : charsLe l2 l1 = true) : l1 = l2 := by
  induction l1 generalizing l2 with
  | nil => cases l2 with
    | nil => rfl
    | cons b bs => simp [charsLe] at h2
  | cons a as ih =>
    cases l2 with
    | nil => simp [charsLe] at h1
    | cons b bs =>
      simp only [charsLe, Bool.or_eq_true, Bool.and_eq_true, Nat.blt_eq, beq_iff_eq] at h1 h2
      rcases h1 with h1 | ⟨hab, h1⟩ <;> rcases h2 with h2 | ⟨hba, h2⟩
      · omega
      · omega
      · omega
      · rw [char_toNat_inj hab, ih bs h1 h2]

instance : IsTotal GenericTagValue gtvLe := by
  constructor
  intro v w
  cases v <;> cases w <;>
    simp only [gtvLe, GenericTagValue.leB, Nat.ble_eq] <;>
    first
      | exact Or.inl trivial
      | exact Or.inr trivial
      | exact Or.inl rfl
      | exact Or.inr rfl
      | exact Nat.le_total _ _
      | exact charsLe_total _ _

instance : IsTrans GenericTagValue gtvLe := by
  constructor
  intro a b c h1 h2
  cases a <;> cases b <;> cases c <;>
    simp only [gtvLe, GenericTagValue.leB, Nat.ble_eq] at h1 h2 ⊢ <;>
    first
      | trivial
      | exact Bool.noConfusion h1
      | exact Bool.noConfusion h2
      | exact h1.trans h2
      | exact charsLe_trans _ _ _ h1 h2

instance : IsAntisymm GenericTagValue gtvLe := by
  constructor
  intro a b h1 h2
  cases a <;> cases b <;>
    simp only [gtvLe, GenericTagValue.leB, Nat.ble_eq] at h1 h2 <;>
    first
      | rfl
      | exact Bool.noConfusion h1
      | exact Bool.noConfusion h2
      | exact congrArg GenericTagValue.pubkey (Nat.le_antisymm h1 h2)
      | exact congrArg GenericTagValue.eventId (Nat.le_antisymm h1 h2)
      | exact congrArg GenericTagValue.str (String.ext (charsLe_antisymm _ _ h1 h2))

/-! ### Canonical list extraction from a finite set

Rust set iteration order is unspecified (std `HashSet`) or sorted (no-std
`BTreeSet`); the embedding emits sorted order.  Insertion sort is used
because it is structurally recursive and therefore evaluates by kernel
reduction. -/

/-- The sorted list of elements of a finite set. -/
def sortedList {α : Type} (r : α → α → Prop) [DecidableRel r] [IsTrans α r] [IsAntisymm α r]
    [IsTotal α r] (s : Finset α) : List α :=
  Quot.liftOn s.val (List.insertionSort r) fun l1 l2 h =>
    List.eq_of_perm_of_sorted
      ((List.perm_insertionSort r l1).trans (h.trans (List.perm_insertionSort r l2).symm))
      (List.sorted_insertionSort r l1) (List.sorted_insertionSort r l2)

theorem mem_sortedList {α : Type} (r : α → α → Prop) [DecidableRel r] [IsTrans α r]
    [IsAntisymm α r] [IsTotal α r] (s : Finset α) (a : α) : a ∈ sortedList r s ↔ a ∈ s := by
  rcases s with ⟨m, hm⟩
  induction m using Quot.inductionOn with
  | h l => exact ((List.perm_insertionSort r l).mem_iff).trans Iff.rfl

theorem sortedList_toFinset {α : Type} [DecidableEq α] (r : α → α → Prop) [DecidableRel r]
    [IsTrans α r] [IsAntisymm α r] [IsTotal α r] (s : Finset α) :
    (sortedList r s).toFinset = s := by
  ext a
  rw [List.mem_toFinset, mem_sortedList]

/-! ### Filter (subscription.rs)

Fixed fields plus the generic tag map.  `EventId`, `XOnlyPublicKey`,
`Kind`, `Timestamp` and `usize` payloads are `Nat` values; well-formedness
bounds appear as explicit hypotheses where a theorem needs them.  The
generic tag map sends a tag to `none` when the key is absent and to the
(possibly empty) value set when present, matching the map of the source. -/

/-- The generic tag map type (`type GenericTags` in the source). -/
abbrev GenericTags := SingleLetterTag → Option (Finset GenericTagValue)

/-- A subscription filter. -/
structure Filter where
  ids : Finset Nat
  authors : Finset Nat
  kinds : Finset Nat
  search : Option String
  since : Option Nat
  until' : Option Nat
  limit : Option Nat
  generic_tags : GenericTags

instance : DecidableEq Filter := fun f g =>
  decidable_of_iff
    (f.ids = g.ids ∧ f.authors = g.authors ∧ f.kinds = g.kinds ∧ f.search = g.search ∧
      f.since = g.since ∧ f.until' = g.until' ∧ f.limit = g.limit ∧
      f.generic_tags = g.generic_tags)
    (by cases f; cases g; simp)

/-- The empty filter (`Filter::new`, i.e. `Filter::default`). -/
def Filter.new : Filter := ⟨∅, ∅, ∅, none, none, none, none, fun _ => none⟩

/-- Add one event id (`Filter::id`). -/
def Filter.id (f : Filter) (id : Nat) : Filter := { f with ids := insert id f.ids }

/-- Add event ids (`Filter::ids`; primed because the field keeps the
source name). -/
def Filter.ids' (f : Filter) (ids : List Nat) : Filter :=
  { f with ids := f.ids ∪ ids.toFinset }

/-- Add one kind (`Filter::kind`). -/
def Filter.kind (f : Filter) (kind : Nat) : Filter := { f with kinds := insert kind f.kinds }

/-- Add kinds (`Filter::kinds`; primed because the field keeps the source
name). -/
def Filter.kinds' (f : Filter) (kinds : List Nat) : Filter :=
  { f with kinds := f.kinds ∪ kinds.toFinset }

/-- Add one author (`Filter::author`). -/
def Filter.author (f : Filter) (author : Nat) : Filter :=
  { f with authors := insert author f.authors }

/-- Set the search field (`Filter::search`; primed because the field keeps
the source name). -/
def Filter.search' (f : Filter) (value : String) : Filter := { f with search := some value }

/-- Add custom tag values (`Filter::custom_tag`): extend the value set of
the key if present, insert it otherwise. -/
def Filter.custom_tag (f : Filter) (tag : SingleLetterTag) (values : Finset GenericTagValue) :
    Filter :=
  { f with
    generic_tags := fun u =>
      if u = tag then some ((f.generic_tags tag).getD ∅ ∪ values) else f.generic_tags u }

/-- Remove custom tag values (`Filter::remove_custom_tag`): retain the
values of the key outside the given set; an absent key stays absent, and
a present key stays present even when all its values go. -/
def Filter.remove_custom_tag (f : Filter) (tag : SingleLetterTag)
    (values : Finset GenericTagValue) : Filter :=
  { f with
    generic_tags := fun u =>
      if u = tag then (f.generic_tags tag).map (fun vs => vs.filter (fun v => v ∉ values))
      else f.generic_tags u }

/-- Add an identifier, a lowercase `d` tag (`Filter::identifier`). -/
def Filter.identifier (f : Filter) (identifier : String) : Filter :=
  f.custom_tag ⟨.D, false⟩ {.str identifier}

/-- Whether the filter equals the default one (`Filter::is_empty`). -/
def Filter.is_empty (f : Filter) : Bool := decide (f = Filter.new)

/-! ### Filter JSON serialization (serde derive plus `serialize_generic_tags`)

Each set or option field is skipped when empty or unset
(`skip_serializing_if`); the generic tag map is flattened after the fixed
fields, emitting every present key. -/

/-- Serialize the value set of one generic tag as a JSON array of bare
strings (untagged serialization of each value). -/
def serializeTagValues (vs : Finset GenericTagValue) : Json :=
  .arr ((sortedList gtvLe vs).map (fun v => .str v.render))

/-- Serialize the generic tag map as flattened `"#X"` fields, one per
present key, empty value sets included (`serialize_generic_tags`). -/
def serialize_generic_tags (m : GenericTags) : List (String × Json) :=
  allTags.filterMap (fun t => (m t).map (fun vs => (tagKeyStr t, serializeTagValues vs)))

/-- One set-valued fixed field, omitted when empty. -/
def setEntry (name : String) (enc : Nat → Json) (s : Finset Nat) : List (String × Json) :=
  if s = ∅ then [] else [(name, Json.arr ((sortedList (· ≤ ·) s).map enc))]

/-- One optional fixed field, omitted when unset. -/
def optEntry {β : Type} (name : String) (enc : β → Json) : Option β → List (String × Json)
  | none => []
  | some v => [(name, enc v)]

/-- Serialize a filter to its JSON object fields, in declaration order
with the flattened generic tags last. -/
def serializeFilter (f : Filter) : List (String × Json) :=
  setEntry "ids" (fun n => .str (hex64 n)) f.ids ++
    setEntry "authors" (fun n => .str (hex64 n)) f.authors ++
    setEntry "kinds" .num f.kinds ++
    optEntry "search" .str f.search ++
    optEntry "since" .num f.since ++
    optEntry "until" .num f.until' ++
    optEntry "limit" .num f.limit ++
    serialize_generic_tags f.generic_tags

/-! ### Filter JSON deserialization (serde derive plus
`deserialize_generic_tags`)

Fixed fields parse from their named keys (defaulting when absent); every
key of the object also passes through the generic-tags visitor, which
handles exactly the keys `#X` of two characters and ignores the rest
(the fixed names never have that shape, so processing the whole list is
equivalent to serde routing only the leftover keys to the visitor). -/

/-- Parse an event id: a 64-character hex string
(modelled from the spec: `EventId` deserializes from its canonical
64-character hex form; `event/id.rs` is not part of the excerpt). -/
def parseEventIdJson : Json → Option Nat
  | .str s => decodeHex64 s
  | _ => none

/-- Parse an x-only public key: 64 hex characters naming a valid point
(`XOnlyPublicKey` deserialization, hex decode plus `lift_x`). -/
def parsePubkeyJson : Json → Option Nat
  | .str s => (decodeHex64 s).bind (fun n => if isValidXOnly n then some n else none)
  | _ => none

/-- Parse a kind: a JSON number fitting in 16 bits
(modelled from the spec: `Kind` is an unsigned 16-bit integer; `kind.rs`
is not part of the excerpt). -/
def parseKindJson : Json → Option Nat
  | .num n => if n < 2 ^ 16 then some n else none
  | _ => none

/-- Parse an unsigned 64-bit number (`Timestamp` and `usize` fields). -/
def parseU64Json : Json → Option Nat
  | .num n => if n < 2 ^ 64 then some n else none
  | _ => none

/-- Parse a JSON string. -/
def parseStringJson : Json → Option String
  | .str s => some s
  | _ => none

/-- Parse every element of a JSON list, failing if any element fails. -/
def parseListWith {β : Type} (p : Json → Option β) : List Json → Option (List β)
  | [] => some []
  | j :: js =>
    match p j, parseListWith p js with
    | some v, some vs => some (v :: vs)
    | _, _ => none

/-- First value of a field name in an object, `none` when absent. -/
def findField (name : String) : List (String × Json) → Option Json
  | [] => none
  | (k, v) :: rest => if k = name then some v else findField name rest

/-- Parse a set-valued fixed field: absent means empty, present must be an
array whose elements all parse. -/
def parseSetField (name : String) (p : Json → Option Nat) (fields : List (String × Json)) :
    Option (Finset Nat) :=
  match findField name fields with
  | none => some ∅
  | some (.arr xs) => (parseListWith p xs).map List.toFinset
  | some _ => none

/-- Parse an optional fixed field: absent means unset. -/
def parseOptField {β : Type} (name : String) (p : Json → Option β)
    (fields : List (String × Json)) : Option (Option β) :=
  match findField name fields with
  | none => some none
  | some j => (p j).map some

/-- Untagged deserialization of one generic tag value: serde tries
`Pubkey`, then `EventId`, then `String`, so a 64-hex string naming a valid
point becomes a public key, any other 64-hex string an event id, any other
string stays a string, and a non-string fails every variant. -/
def decodeGenericTagValue : Json → Option GenericTagValue
  | .str s =>
    match decodeHex64 s with
    | some n => if isValidXOnly n then some (.pubkey n) else some (.eventId n)
    | none => some (.str s)
  | _ => none

/-- Decode a JSON value as a set of generic tag values. -/
def decodeTagValues : Json → Option (Finset GenericTagValue)
  | .arr xs => (parseListWith decodeGenericTagValue xs).map List.toFinset
  | _ => none

/-- The per-letter retain predicate of `deserialize_generic_tags`:
lowercase `p` keeps public keys, lowercase `e` keeps event ids, uppercase
`P` keeps public keys, everything else keeps all values. -/
def keptBy (t : SingleLetterTag) (v : GenericTagValue) : Bool :=
  if t.uppercase = false then
    match t.character with
    | .P => v.isPubkey
    | .E => v.isEventId
    | _ => true
  else if t.character = .P then v.isPubkey
  else true

/-- Apply the per-letter coercion to a decoded value set. -/
def coerceValues (t : SingleLetterTag) (vs : Finset GenericTagValue) :
    Finset GenericTagValue :=
  vs.filter (fun v => keptBy t v = true)

/-- The empty generic tag map. -/
def emptyTags : GenericTags := fun _ => none

/-- Insert (or replace) the value set of one tag. -/
def insertTag (m : GenericTags) (t : SingleLetterTag) (vs : Finset GenericTagValue) :
    GenericTags :=
  fun u => if u = t then some vs else m u

/-- Copy the entries of `g` at the given tags into an accumulator map, in
order; describes what deserializing the serialized generic tags builds. -/
def updTags (g : GenericTags) : List SingleLetterTag → GenericTags → GenericTags
  | [], acc => acc
  | t :: ts, acc =>
    updTags g ts
      (match g t with
       | some vs => insertTag acc t vs
       | none => acc)

/-- Whether a key has the shape the generic-tags visitor handles: exactly
two characters, the first being `#`. -/
def isHashKey (k : String) : Bool :=
  match k.data with
  | ['#', _] => true
  | _ => false

/-- One loop iteration of the generic-tags visitor
(`deserialize_generic_tags`): a key of exactly two characters starting
with `#` must name a letter (anything else is an error, `none`) and its
value must decode as a value set, which is coerced and inserted; every
other key is ignored (`IgnoredAny`). -/
def dgtStep (k : String) (v : Json) (m : GenericTags) : Option GenericTags :=
  match k.data with
  | ['#', c] =>
    match SingleLetterTag.fromChar c with
    | none => none
    | some t =>
      match decodeTagValues v with
      | none => none
      | some vs => some (insertTag m t (coerceValues t vs))
  | _ => some m

/-- The generic-tags visitor: fold `dgtStep` over the object's fields,
aborting on the first error. -/
def deserialize_generic_tags : List (String × Json) → GenericTags → Option GenericTags
  | [], m => some m
  | (k, v) :: rest, m =>
    match dgtStep k v m with
    | some m2 => deserialize_generic_tags rest m2
    | none => none

/-- The named fields of the serde-derived part of the `Filter` codec. -/
def fixedFieldNames : List String :=
  ["ids", "authors", "kinds", "search", "since", "until", "limit"]

/-- Deserialize a filter from its JSON object fields; `none` models a
serde error. -/
def deserializeFilter (fields : List (String × Json)) : Option Filter := do
  let ids ← parseSetField "ids" parseEventIdJson fields
  let authors ← parseSetField "authors" parsePubkeyJson fields
  let kinds ← parseSetField "kinds" parseKindJson fields
  let search ← parseOptField "search" parseStringJson fields
  let since ← parseOptField "since" parseU64Json fields
  let until' ← parseOptField "until" parseU64Json fields
  let limit ← parseOptField "limit" parseU64Json fields
  let gt ← deserialize_generic_tags fields emptyTags
  pure ⟨ids, authors, kinds, search, since, until', limit, gt⟩

/-! ### Coordinate (nip01.rs) -/

/-- A parameterized-replaceable event coordinate. -/
structure Coordinate where
  kind : Nat
  pubkey : Nat
  identifier : String
  relays : List String

instance : DecidableEq Coordinate := fun c d =>
  decidable_of_iff
    (c.kind = d.kind ∧ c.pubkey = d.pubkey ∧ c.identifier = d.identifier ∧ c.relays = d.relays)
    (by cases c; cases d; simp)

/-- The error cases `Coordinate::from_str` can produce. -/
inductive CoordinateError
  | parseInt
  | secp256k1
  | invalidCoordinate
deriving DecidableEq

instance {ε α : Type} [DecidableEq ε] [DecidableEq α] : DecidableEq (Except ε α) := fun x y =>
  match x, y with
  | .ok a, .ok b => if h : a = b then isTrue (by rw [h]) else isFalse (by simp [h])
  | .error a, .error b => if h : a = b then isTrue (by rw [h]) else isFalse (by simp [h])
  | .ok _, .error _ => isFalse (by simp)
  | .error _, .ok _ => isFalse (by simp)

/-- Decimal digit accumulator. -/
def parseDecimalAux : Nat → List Char → Option Nat
  | acc, [] => some acc
  | acc, c :: cs => if c.isDigit then parseDecimalAux (acc * 10 + (c.toNat - 48)) cs else none

/-- Parse a kind from a decimal string
(modelled from the spec: `Kind::from_str` parses an unsigned 16-bit
integer; `kind.rs` is not part of the excerpt). -/
def parseKindStr (s : String) : Option Nat :=
  if s.data.isEmpty then none
  else (parseDecimalAux 0 s.data).bind (fun n => if n < 2 ^ 16 then some n else none)

/-- Parse an x-only public key from its hex string
(`XOnlyPublicKey::from_str`). -/
def parsePubkeyStr (s : String) : Option Nat :=
  (decodeHex64 s).bind (fun n => if isValidXOnly n then some n else none)

/-- Split a character list at every colon; the empty list is one empty
segment, as in Rust's `str::split(':')`. -/
def splitOnColon : List Char → List (List Char)
  | [] => [[]]
  | c :: cs =>
    let rest := splitOnColon cs
    if c = ':' then [] :: rest
    else
      match rest with
      | seg :: segs => (c :: seg) :: segs
      | [] => [[c]]

/-- The colon-separated segments of a string (`str::split(':')`). -/
def splitColon (s : String) : List String := (splitOnColon s.data).map (fun l => ⟨l⟩)

/-- Parse a coordinate (`FromStr for Coordinate`): split on `:`, take the
first three segments as kind, public key and identifier, discard the rest;
fewer than three segments is `InvalidCoordinate`. -/
def Coordinate.fromStr (s : String) : Except CoordinateError Coordinate :=
  match splitColon s with
  | kindStr :: pubkeyStr :: identifier :: _ =>
    match parseKindStr kindStr with
    | none => .error .parseInt
    | some kind =>
      match parsePubkeyStr pubkeyStr with
      | none => .error .secp256k1
      | some pubkey => .ok ⟨kind, pubkey, identifier, []⟩
  | _ => .error .invalidCoordinate

/-- Convert a coordinate to a filter (`From<Coordinate> for Filter`):
kind and author always, the identifier as a `#d` value only when
non-empty. -/
def Coordinate.toFilter (c : Coordinate) : Filter :=
  if c.identifier = "" then (Filter.new.kind c.kind).author c.pubkey
  else ((Filter.new.kind c.kind).author c.pubkey).identifier c.identifier

/-! ### RelayOptions (options.rs)

Only the retry-related fields are modelled; the atomics of the source are
single-thread state here, `u64` becomes `Nat`. -/

/-- Default retry delay in seconds. -/
def DEFAULT_RETRY_SEC : Nat := 10

/-- Minimum allowed retry delay in seconds. -/
def MIN_RETRY_SEC : Nat := 5

/-- Maximum adjusted retry delay in seconds. -/
def MAX_ADJ_RETRY_SEC : Nat := 60

/-- Relay options. -/
structure RelayOptions where
  reconnect : Bool
  retry_sec : Nat
  adjust_retry_sec : Bool
deriving DecidableEq

/-- The default options (`RelayOptions::new` / `Default`). -/
def RelayOptions.new : RelayOptions := ⟨true, DEFAULT_RETRY_SEC, true⟩

/-- The `retry_sec` builder: store the value when it is at least the
minimum, the default otherwise. -/
def RelayOptions.retry_sec' (o : RelayOptions) (retry_sec : Nat) : RelayOptions :=
  { o with retry_sec := if retry_sec ≥ MIN_RETRY_SEC then retry_sec else DEFAULT_RETRY_SEC }

/-- Read the stored retry delay (`get_retry_sec`). -/
def RelayOptions.get_retry_sec (o : RelayOptions) : Nat := o.retry_sec

/-- Live update of the retry delay (`update_retry_sec`): values below the
minimum are rejected and leave the stored value unchanged. -/
def RelayOptions.update_retry_sec (o : RelayOptions) (retry_sec : Nat) : RelayOptions :=
  if retry_sec ≥ MIN_RETRY_SEC then { o with retry_sec := retry_sec } else o

/-! ### Sequences of kind-builder calls -/

/-- One call in a sequence of kind accumulation builder calls. -/
inductive KindOp
  | one (k : Nat)
  | many (ks : List Nat)

/-- Apply a sequence of `kind`/`kinds` builder calls. -/
def applyKindOps (f : Filter) : List KindOp → Filter
  | [] => f
  | .one k :: ops => applyKindOps (f.kind k) ops
  | .many ks :: ops => applyKindOps (f.kinds' ks) ops

/-- All kinds supplied by a sequence of calls, in order. -/
def flatKinds : List KindOp → List Nat
  | [] => []
  | .one k :: ops => k :: flatKinds ops
  | .many ks :: ops => ks ++ flatKinds ops

/-! ### Concrete values used by the repository's tests -/

/-- The x-only public key appearing in the repository's filter tests (a
valid curve point). -/
def pk379 : Nat := 0x379e863e8357163b5bce5d2688dc4f1dcc2d505222fb8d74db600f30535dfdfe

/-- Its 64-character hex string. -/
def pkHexStr : String := "379e863e8357163b5bce5d2688dc4f1dcc2d505222fb8d74db600f30535dfdfe"

/-- The event id appearing in the repository's filter tests. -/
def id70b : Nat := 0x70b10f70c1318967eddf12527799411b1a9780ad9c43858f5e5fcd45486a13a5

/-- The filter of scenario S1: search text, one id, `#a` strings and a
`#p` public key. -/
def filterS1 : Filter :=
  (((Filter.new.ids' [id70b]).search' ("test")).custom_tag ⟨.A, false⟩
      {.str "...", .str "test"}).custom_tag ⟨.P, false⟩ {.pubkey pk379}

/-! ### Well-formedness and fixed-point hypotheses for the round trip -/

/-- Payload bounds that the Rust types enforce statically: ids are 256-bit
digests, authors valid public keys, kinds 16-bit, the range and limit
fields 64-bit. -/
def FilterWF (f : Filter) : Prop :=
  (∀ n ∈ f.ids, n < 2 ^ 256) ∧ (∀ a ∈ f.authors, isValidXOnly a = true) ∧
    (∀ k ∈ f.kinds, k < 2 ^ 16) ∧ f.since.getD 0 < 2 ^ 64 ∧ f.until'.getD 0 < 2 ^ 64 ∧
    f.limit.getD 0 < 2 ^ 64

instance (f : Filter) : Decidable (FilterWF f) := by unfold FilterWF; infer_instance

/-- A stored generic tag value survives one decode of its rendered form
under its tag: the untagged decoding returns it unchanged and the
per-letter retain keeps it. -/
def ValueFixed (t : SingleLetterTag) (v : GenericTagValue) : Prop :=
  decodeGenericTagValue (.str v.render) = some v ∧ keptBy t v = true

instance (t : SingleLetterTag) (v : GenericTagValue) : Decidable (ValueFixed t v) := by
  unfold ValueFixed; infer_instance

/-- Every generic tag value of the filter is fixed under decoding. -/
def GenericTagsFixed (f : Filter) : Prop :=
  ∀ t : SingleLetterTag, ∀ v ∈ (f.generic_tags t).getD ∅, ValueFixed t v

instance (f : Filter) : Decidable (GenericTagsFixed f) := by
  unfold GenericTagsFixed; infer_instance

theorem mem_hexOfBytes_hexDigits (bs : List Nat) :
    ∀ c ∈ (hexOfBytes bs).data, c ∈ hexDigits := by
  intro c hc
  simp only [hexOfBytes, List.mem_flatMap] at hc
  obtain ⟨b, _, hc⟩ := hc
  exact mem_encodeHexPad_hexDigits 2 b c hc

/-! ## Codec lemmas -/

theorem findField_append (name : String) (l1 l2 : List (String × Json)) :
    findField name (l1 ++ l2) = (findField name l1 <|> findField name l2) := by
  induction l1 with
  | nil => simp [findField]
  | cons p rest ih =>
    rcases p with ⟨k, v⟩
    by_cases hk : k = name <;> simp [findField, hk, ih]

theorem findField_eq_none (name : String) (l : List (String × Json))
    (h : ∀ p ∈ l, p.1 ≠ name) : findField name l = none := by
  induction l with
  | nil => rfl
  | cons p rest ih =>
    rcases p with ⟨k, v⟩
    have hk : k ≠ name := h (k, v) (by simp)
    simp only [findField, if_neg hk]
    exact ih fun q hq => h q (by simp [hq])

theorem findField_setEntry (name name' : String) (enc : Nat → Json) (s : Finset Nat) :
    findField name (setEntry name' enc s) =
      if name' = name ∧ s ≠ ∅ then some (.arr ((sortedList (· ≤ ·) s).map enc)) else none := by
  unfold setEntry
  by_cases hs : s = ∅
  · simp [hs, findField]
  · by_cases hn : name' = name <;> simp [hs, hn, findField]

theorem findField_optEntry {β : Type} (name name' : String) (enc : β → Json) (o : Option β) :
    findField name (optEntry name' enc o) =
      if name' = name then o.map enc else none := by
  cases o with
  | none => simp [optEntry, findField]
  | some v => by_cases hn : name' = name <;> simp [optEntry, findField, hn]

theorem mem_serialize_generic_tags {m : GenericTags} {p : String × Json}
    (hp : p ∈ serialize_generic_tags m) :
    ∃ t vs, m t = some vs ∧ p = (tagKeyStr t, serializeTagValues vs) := by
  unfold serialize_generic_tags at hp
  rw [List.mem_filterMap] at hp
  obtain ⟨t, _, ht⟩ := hp
  cases hmt : m t with
  | none => rw [hmt] at ht; exact Option.noConfusion ht
  | some vs =>
    rw [hmt, Option.map_some'] at ht
    exact ⟨t, vs, hmt, ((Option.some.injEq _ _).mp ht).symm⟩

theorem tagKeyStr_length (t : SingleLetterTag) : (tagKeyStr t).length = 2 := rfl

theorem findField_sgt (name : String) (m : GenericTags) (hname : name.length ≠ 2) :
    findField name (serialize_generic_tags m) = none := by
  apply findField_eq_none
  intro p hp hpn
  obtain ⟨t, vs, _, hpt⟩ := mem_serialize_generic_tags hp
  rw [hpt] at hpn
  exact hname (hpn ▸ tagKeyStr_length t)

theorem dgt_append (l1 l2 : List (String × Json)) (m : GenericTags) :
    deserialize_generic_tags (l1 ++ l2) m =
      match deserialize_generic_tags l1 m with
      | some m2 => deserialize_generic_tags l2 m2
      | none => none := by
  induction l1 generalizing m with
  | nil => rfl
  | cons p rest ih =>
    rcases p with ⟨k, v⟩
    simp only [List.cons_append, deserialize_generic_tags]
    cases dgtStep k v m with
    | none => rfl
    | some m2 => exact ih m2

theorem dgtStep_skip (k : String) (v : Json) (m : GenericTags) (h : isHashKey k = false) :
    dgtStep k v m = some m := by
  unfold dgtStep
  unfold isHashKey at h
  split
  · rename_i c heq
    rw [heq] at h
    exact Bool.noConfusion h
  · rfl

theorem isHashKey_of_length (k : String) (h : k.length ≠ 2) : isHashKey k = false := by
  unfold isHashKey
  split
  · rename_i c heq
    exfalso
    apply h
    show k.data.length = 2
    rw [heq]
    rfl
  · rfl

theorem dgt_skip_all (l : List (String × Json)) (m : GenericTags)
    (h : ∀ p ∈ l, isHashKey p.1 = false) : deserialize_generic_tags l m = some m := by
  induction l generalizing m with
  | nil => rfl
  | cons p rest ih =>
    rcases p with ⟨k, v⟩
    simp only [deserialize_generic_tags]
    rw [dgtStep_skip k v m (h (k, v) (by simp))]
    exact ih m fun q hq => h q (by simp [hq])

theorem parseListWith_map {β : Type} (p : Json → Option β) (enc : β → Json) (l : List β)
    (h : ∀ x ∈ l, p (enc x) = some x) : parseListWith p (l.map enc) = some l := by
  induction l with
  | nil => rfl
  | cons x xs ih =>
    simp only [List.map_cons, parseListWith]
    rw [h x (by simp), ih fun y hy => h y (by simp [hy])]

theorem parseListWith_mem {β : Type} (p : Json → Option β) (js : List Json) (l : List β)
    (h : parseListWith p js = some l) : ∀ x ∈ l, ∃ j ∈ js, p j = some x := by
  induction js generalizing l with
  | nil =>
    simp only [parseListWith, Option.some.injEq] at h
    subst h
    intro x hx
    cases hx
  | cons j js ih =>
    simp only [parseListWith] at h
    cases hj : p j with
    | none => rw [hj] at h; exact Option.noConfusion h
    | some v =>
      rw [hj] at h
      cases hrest : parseListWith p js with
      | none => rw [hrest] at h; exact Option.noConfusion h
      | some vs =>
        rw [hrest] at h
        obtain rfl : v :: vs = l := (Option.some.injEq _ _).mp h
        intro x hx
        rcases List.mem_cons.mp hx with rfl | hx'
        · exact ⟨j, by simp, hj⟩
        · obtain ⟨j2, hj2, hpj2⟩ := ih vs hrest x hx'
          exact ⟨j2, by simp [hj2], hpj2⟩

theorem findField_middle (name k : String) (v : Json) (l1 l2 : List (String × Json))
    (h : k ≠ name) :
    findField name (l1 ++ (k, v) :: l2) = findField name (l1 ++ l2) := by
  rw [findField_append, findField_append]
  have : findField name ((k, v) :: l2) = findField name l2 := by
    simp [findField, h]
  rw [this]

theorem fromChar_eq_none_of_not_alpha (c : Char) (h : c.isAlpha = false) :
    SingleLetterTag.fromChar c = none := by
  unfold SingleLetterTag.fromChar
  split
  all_goals try rfl
  all_goals exact absurd h (by decide)

theorem decodeGenericTagValue_str_shape (j : Json) (s : String)
    (h : decodeGenericTagValue j = some (.str s)) : decodeHex64 s = none := by
  cases j with
  | num n => exact Option.noConfusion h
  | arr xs => exact Option.noConfusion h
  | str s2 =>
    simp only [decodeGenericTagValue] at h
    cases hd : decodeHex64 s2 with
    | some n =>
      rw [hd] at h
      by_cases hv : isValidXOnly n = true <;> simp [hv] at h
    | none =>
      rw [hd] at h
      have h2 : GenericTagValue.str s2 = GenericTagValue.str s := (Option.some.injEq _ _).mp h
      obtain rfl : s2 = s := GenericTagValue.str.inj h2
      exact hd

theorem decodeTagValues_shape (v : Json) (vs : Finset GenericTagValue)
    (h : decodeTagValues v = some vs) :
    ∀ w ∈ vs, ∀ s, w = .str s → decodeHex64 s = none := by
  cases v with
  | num n => exact Option.noConfusion h
  | str s2 => exact Option.noConfusion h
  | arr xs =>
    simp only [decodeTagValues] at h
    cases hl : parseListWith decodeGenericTagValue xs with
    | none => rw [hl] at h; exact Option.noConfusion h
    | some l =>
      rw [hl] at h
      obtain rfl : l.toFinset = vs := by
        rw [Option.map_some'] at h
        exact (Option.some.injEq _ _).mp h
      intro w hw s hws
      obtain ⟨j, _, hj⟩ := parseListWith_mem _ _ _ hl w (List.mem_toFinset.mp hw)
      exact decodeGenericTagValue_str_shape j s (hws ▸ hj)

/-- The membership invariant a decoded generic-tags map satisfies: every
stored value passed its tag's retain predicate, and a stored `String`
value is never 64 hex characters (those decode to the other variants). -/
def TagMapInv (m : GenericTags) : Prop :=
  ∀ t : SingleLetterTag, ∀ v ∈ (m t).getD ∅,
    keptBy t v = true ∧ ∀ s, v = .str s → decodeHex64 s = none

theorem dgtStep_invariant (k : String) (v : Json) (m0 m1 : GenericTags)
    (hstep : dgtStep k v m0 = some m1) (h0 : TagMapInv m0) : TagMapInv m1 := by
  unfold dgtStep at hstep
  revert hstep
  split
  · rename_i c heq
    cases hfc : SingleLetterTag.fromChar c with
    | none => intro hstep; exact Option.noConfusion hstep
    | some t =>
      cases hdv : decodeTagValues v with
      | none => intro hstep; exact Option.noConfusion hstep
      | some vs =>
        intro hstep
        obtain rfl : insertTag m0 t (coerceValues t vs) = m1 :=
          (Option.some.injEq _ _).mp hstep
        intro u w hw
        unfold insertTag at hw
        by_cases hut : u = t
        · rw [if_pos hut] at hw
          simp only [Option.getD_some] at hw
          unfold coerceValues at hw
          have hmem := Finset.mem_filter.mp hw
          refine ⟨hut ▸ of_decide_eq_true (by simpa using hmem.2), ?_⟩
          intro s hws
          exact decodeTagValues_shape v vs hdv w hmem.1 s hws
        · rw [if_neg hut] at hw
          exact h0 u w hw
  · intro hstep
    obtain rfl : m0 = m1 := (Option.some.injEq _ _).mp hstep
    exact h0

theorem dgt_invariant (entries : List (String × Json)) (m0 m : GenericTags)
    (hd : deserialize_generic_tags entries m0 = some m) (h0 : TagMapInv m0) : TagMapInv m := by
  induction entries generalizing m0 with
  | nil =>
    obtain rfl : m0 = m := (Option.some.injEq _ _).mp hd
    exact h0
  | cons p rest ih =>
    rcases p with ⟨k, v⟩
    simp only [deserialize_generic_tags] at hd
    cases hstep : dgtStep k v m0 with
    | none => rw [hstep] at hd; exact Option.noConfusion hd
    | some m1 =>
      rw [hstep] at hd
      exact ih m1 hd (dgtStep_invariant k v m0 m1 hstep h0)

theorem tagKeyStr_inj : ∀ t u : SingleLetterTag, tagKeyStr t = tagKeyStr u → t = u := by
  decide

theorem findField_filterMap_tags_none (ts : List SingleLetterTag) (m : GenericTags)
    (t : SingleLetterTag) (hnot : t ∉ ts) :
    findField (tagKeyStr t)
      (ts.filterMap (fun u => (m u).map (fun vs => (tagKeyStr u, serializeTagValues vs)))) =
      none := by
  apply findField_eq_none
  intro p hp hpt
  rw [List.mem_filterMap] at hp
  obtain ⟨u, hu, hpu⟩ := hp
  cases hmu : m u with
  | none => rw [hmu] at hpu; exact Option.noConfusion hpu
  | some vs =>
    rw [hmu, Option.map_some'] at hpu
    obtain rfl := (Option.some.injEq _ _).mp hpu
    exact hnot (tagKeyStr_inj u t hpt ▸ hu)

theorem findField_filterMap_tags (ts : List SingleLetterTag) (m : GenericTags)
    (t : SingleLetterTag) (hmem : t ∈ ts) (hnodup : ts.Nodup) :
    findField (tagKeyStr t)
      (ts.filterMap (fun u => (m u).map (fun vs => (tagKeyStr u, serializeTagValues vs)))) =
      (m t).map serializeTagValues := by
  induction ts with
  | nil => cases hmem
  | cons u us ih =>
    obtain ⟨hu_not, hus_nodup⟩ := List.nodup_cons.mp hnodup
    simp only [List.filterMap_cons]
    rcases List.mem_cons.mp hmem with rfl | hmem2
    · cases hmt : m t with
      | some vs => simp [hmt, findField]
      | none =>
        simp only [hmt, Option.map_none']
        exact findField_filterMap_tags_none us m t hu_not
    · have hne : tagKeyStr u ≠ tagKeyStr t :=
        fun he => hu_not (tagKeyStr_inj u t he ▸ hmem2)
      cases hmu : m u with
      | none => exact ih hmem2 hus_nodup
      | some vs =>
        simp only [hmu, Option.map_some', findField, if_neg hne]
        exact ih hmem2 hus_nodup

theorem findField_sgt_tag (m : GenericTags) (t : SingleLetterTag) :
    findField (tagKeyStr t) (serialize_generic_tags m) = (m t).map serializeTagValues :=
  findField_filterMap_tags allTags m t (mem_allTags t) (by decide)

/-! ## Round-trip lemmas -/

theorem isValidXOnly_lt (x : Nat) (h : isValidXOnly x = true) : x < 2 ^ 256 := by
  unfold isValidXOnly at h
  simp only [Bool.and_eq_true] at h
  have h2 : x < secpP := of_decide_eq_true h.1
  exact Nat.lt_of_lt_of_le h2 (by norm_num [secpP])

theorem mem_setEntry {name : String} {enc : Nat → Json} {s : Finset Nat} {p : String × Json}
    (hp : p ∈ setEntry name enc s) : p.1 = name := by
  unfold setEntry at hp
  split at hp
  · cases hp
  · rw [List.mem_singleton] at hp
    rw [hp]

theorem mem_optEntry {β : Type} {name : String} {enc : β → Json} {o : Option β}
    {p : String × Json} (hp : p ∈ optEntry name enc o) : p.1 = name := by
  cases o with
  | none => cases hp
  | some v =>
    rw [show optEntry name enc (some v) = [(name, enc v)] from rfl, List.mem_singleton] at hp
    rw [hp]

theorem dgt_append_skip (l1 l2 : List (String × Json)) (m : GenericTags)
    (h : ∀ p ∈ l1, isHashKey p.1 = false) :
    deserialize_generic_tags (l1 ++ l2) m = deserialize_generic_tags l2 m := by
  rw [dgt_append, dgt_skip_all l1 m h]

theorem dgt_fixed_part (f : Filter) (m : GenericTags) :
    deserialize_generic_tags (serializeFilter f) m =
      deserialize_generic_tags (serialize_generic_tags f.generic_tags) m := by
  unfold serializeFilter
  simp only [List.append_assoc]
  rw [dgt_append_skip _ _ _ (fun p hp => by rw [mem_setEntry hp]; decide)]
  rw [dgt_append_skip _ _ _ (fun p hp => by rw [mem_setEntry hp]; decide)]
  rw [dgt_append_skip _ _ _ (fun p hp => by rw [mem_setEntry hp]; decide)]
  rw [dgt_append_skip _ _ _ (fun p hp => by rw [mem_optEntry hp]; decide)]
  rw [dgt_append_skip _ _ _ (fun p hp => by rw [mem_optEntry hp]; decide)]
  rw [dgt_append_skip _ _ _ (fun p hp => by rw [mem_optEntry hp]; decide)]
  rw [dgt_append_skip _ _ _ (fun p hp => by rw [mem_optEntry hp]; decide)]

theorem coerceValues_eq (t : SingleLetterTag) (vs : Finset GenericTagValue)
    (h : ∀ v ∈ vs, keptBy t v = true) : coerceValues t vs = vs := by
  unfold coerceValues
  exact Finset.filter_true_of_mem fun v hv => h v hv

theorem decodeTagValues_serialize (vs : Finset GenericTagValue)
    (hv : ∀ v ∈ vs, decodeGenericTagValue (.str v.render) = some v) :
    decodeTagValues (serializeTagValues vs) = some vs := by
  simp only [serializeTagValues, decodeTagValues]
  rw [parseListWith_map _ _ _ (fun x hx => hv x ((mem_sortedList _ _ _).mp hx)),
    Option.map_some', sortedList_toFinset]

theorem dgtStep_tagKey (t : SingleLetterTag) (vs : Finset GenericTagValue) (m : GenericTags)
    (hv : ∀ v ∈ vs, ValueFixed t v) :
    dgtStep (tagKeyStr t) (serializeTagValues vs) m = some (insertTag m t vs) := by
  show dgtStep ⟨['#', t.asChar]⟩ _ _ = _
  simp only [dgtStep]
  rw [fromChar_asChar, decodeTagValues_serialize vs (fun v hvv => (hv v hvv).1)]
  show some (insertTag m t (coerceValues t vs)) = some (insertTag m t vs)
  rw [coerceValues_eq t vs (fun v hvv => (hv v hvv).2)]

theorem dgt_filterMap_tags (g : GenericTags) (ts : List SingleLetterTag)
    (hfp : ∀ t : SingleLetterTag, ∀ v ∈ (g t).getD ∅, ValueFixed t v) :
    ∀ acc : GenericTags,
      deserialize_generic_tags
        (ts.filterMap (fun u => (g u).map (fun vs => (tagKeyStr u, serializeTagValues vs))))
        acc =
        some (updTags g ts acc) := by
  induction ts with
  | nil => intro acc; rfl
  | cons t ts ih =>
    intro acc
    simp only [List.filterMap_cons]
    cases hgt : g t with
    | none =>
      simp only [updTags, hgt]
      exact ih acc
    | some vs =>
      have hv : ∀ v ∈ vs, ValueFixed t v := by
        intro v hvv
        have := hfp t
        rw [hgt] at this
        exact this v hvv
      simp only [Option.map_some', deserialize_generic_tags,
        dgtStep_tagKey t vs acc hv, updTags, hgt]
      exact ih (insertTag acc t vs)

theorem updTags_apply (g : GenericTags) (ts : List SingleLetterTag) (u : SingleLetterTag) :
    ∀ acc : GenericTags,
      updTags g ts acc u = if u ∈ ts ∧ (g u).isSome then g u else acc u := by
  induction ts with
  | nil => intro acc; simp [updTags]
  | cons t ts ih =>
    intro acc
    simp only [updTags]
    rw [ih]
    by_cases hmem : u ∈ ts ∧ (g u).isSome
    · rw [if_pos hmem, if_pos ⟨List.mem_cons_of_mem t hmem.1, hmem.2⟩]
    · rw [if_neg hmem]
      by_cases hut : u = t
      · subst hut
        cases hgu : g u with
        | some vs => simp [insertTag]
        | none => simp
      · have hnc : ¬(u ∈ t :: ts ∧ (g u).isSome) := by
          intro hcon
          rcases List.mem_cons.mp hcon.1 with rfl | hmem2
          · exact hut rfl
          · exact hmem ⟨hmem2, hcon.2⟩
        rw [if_neg hnc]
        cases g t with
        | some vs => simp [insertTag, hut]
        | none => rfl

theorem updTags_allTags (g : GenericTags) : updTags g allTags emptyTags = g := by
  funext u
  rw [updTags_apply]
  cases hgu : g u with
  | some vs => simp [mem_allTags u, hgu]
  | none => simp [mem_allTags u, hgu, emptyTags]

theorem dgt_serialize (f : Filter) (hfp : GenericTagsFixed f) :
    deserialize_generic_tags (serializeFilter f) emptyTags = some f.generic_tags := by
  rw [dgt_fixed_part]
  unfold serialize_generic_tags
  rw [dgt_filterMap_tags f.generic_tags allTags hfp emptyTags, updTags_allTags]

theorem parse_ids_serialize (f : Filter) (h : ∀ n ∈ f.ids, n < 2 ^ 256) :
    parseSetField "ids" parseEventIdJson (serializeFilter f) = some f.ids := by
  have hG := findField_sgt "ids" f.generic_tags (by decide)
  by_cases hempty : f.ids = ∅
  · simp [parseSetField, serializeFilter, findField_append, findField_setEntry,
      findField_optEntry, hG, hempty]
  · have hfind : findField "ids" (serializeFilter f) =
        some (.arr ((sortedList (· ≤ ·) f.ids).map (fun n => .str (hex64 n)))) := by
      simp [serializeFilter, findField_append, findField_setEntry, findField_optEntry, hG,
        hempty]
    have hplist : parseListWith parseEventIdJson
        ((sortedList (· ≤ ·) f.ids).map (fun n => .str (hex64 n))) =
          some (sortedList (· ≤ ·) f.ids) := by
      apply parseListWith_map
      intro x hx
      show decodeHex64 (hex64 x) = some x
      exact decodeHex64_hex64 x (h x ((mem_sortedList _ _ _).mp hx))
    simp [parseSetField, hfind, hplist, sortedList_toFinset]

theorem parse_authors_serialize (f : Filter) (h : ∀ a ∈ f.authors, isValidXOnly a = true) :
    parseSetField "authors" parsePubkeyJson (serializeFilter f) = some f.authors := by
  have hG := findField_sgt "authors" f.generic_tags (by decide)
  by_cases hempty : f.authors = ∅
  · simp [parseSetField, serializeFilter, findField_append, findField_setEntry,
      findField_optEntry, hG, hempty]
  · have hfind : findField "authors" (serializeFilter f) =
        some (.arr ((sortedList (· ≤ ·) f.authors).map (fun n => .str (hex64 n)))) := by
      simp [serializeFilter, findField_append, findField_setEntry, findField_optEntry, hG,
        hempty]
    have hplist : parseListWith parsePubkeyJson
        ((sortedList (· ≤ ·) f.authors).map (fun n => .str (hex64 n))) =
          some (sortedList (· ≤ ·) f.authors) := by
      apply parseListWith_map
      intro x hx
      have hx2 := h x ((mem_sortedList _ _ _).mp hx)
      simp only [parsePubkeyJson]
      rw [decodeHex64_hex64 x (isValidXOnly_lt x hx2)]
      simp [hx2]
    simp [parseSetField, hfind, hplist, sortedList_toFinset]

theorem parse_kinds_serialize (f : Filter) (h : ∀ k ∈ f.kinds, k < 2 ^ 16) :
    parseSetField "kinds" parseKindJson (serializeFilter f) = some f.kinds := by
  have hG := findField_sgt "kinds" f.generic_tags (by decide)
  by_cases hempty : f.kinds = ∅
  · simp [parseSetField, serializeFilter, findField_append, findField_setEntry,
      findField_optEntry, hG, hempty]
  · have hfind : findField "kinds" (serializeFilter f) =
        some (.arr ((sortedList (· ≤ ·) f.kinds).map .num)) := by
      simp [serializeFilter, findField_append, findField_setEntry, findField_optEntry, hG,
        hempty]
    have hplist : parseListWith parseKindJson ((sortedList (· ≤ ·) f.kinds).map .num) =
        some (sortedList (· ≤ ·) f.kinds) := by
      apply parseListWith_map
      intro x hx
      have hx2 := h x ((mem_sortedList _ _ _).mp hx)
      simp only [parseKindJson]
      rw [if_pos hx2]
    simp [parseSetField, hfind, hplist, sortedList_toFinset]

theorem parse_search_serialize (f : Filter) :
    parseOptField "search" parseStringJson (serializeFilter f) = some f.search := by
  have hG := findField_sgt "search" f.generic_tags (by decide)
  cases hs : f.search with
  | none =>
    simp [parseOptField, serializeFilter, findField_append, findField_setEntry,
      findField_optEntry, hG, hs]
  | some s =>
    simp [parseOptField, serializeFilter, findField_append, findField_setEntry,
      findField_optEntry, hG, hs, parseStringJson]

theorem parse_since_serialize (f : Filter) (h : f.since.getD 0 < 2 ^ 64) :
    parseOptField "since" parseU64Json (serializeFilter f) = some f.since := by
  have hG := findField_sgt "since" f.generic_tags (by decide)
  cases hs : f.since with
  | none =>
    simp [parseOptField, serializeFilter, findField_append, findField_setEntry,
      findField_optEntry, hG, hs]
  | some n =>
    rw [hs] at h
    simp only [Option.getD_some] at h
    have h2 : n < 18446744073709551616 := by omega
    simp [parseOptField, serializeFilter, findField_append, findField_setEntry,
      findField_optEntry, hG, hs, parseU64Json, h2]

theorem parse_until_serialize (f : Filter) (h : f.until'.getD 0 < 2 ^ 64) :
    parseOptField "until" parseU64Json (serializeFilter f) = some f.until' := by
  have hG := findField_sgt "until" f.generic_tags (by decide)
  cases hs : f.until' with
  | none =>
    simp [parseOptField, serializeFilter, findField_append, findField_setEntry,
      findField_optEntry, hG, hs]
  | some n =>
    rw [hs] at h
    simp only [Option.getD_some] at h
    have h2 : n < 18446744073709551616 := by omega
    simp [parseOptField, serializeFilter, findField_append, findField_setEntry,
      findField_optEntry, hG, hs, parseU64Json, h2]

theorem parse_limit_serialize (f : Filter) (h : f.limit.getD 0 < 2 ^ 64) :
    parseOptField "limit" parseU64Json (serializeFilter f) = some f.limit := by
  have hG := findField_sgt "limit" f.generic_tags (by decide)
  cases hs : f.limit with
  | none =>
    simp [parseOptField, serializeFilter, findField_append, findField_setEntry,
      findField_optEntry, hG, hs]
  | some n =>
    rw [hs] at h
    simp only [Option.getD_some] at h
    have h2 : n < 18446744073709551616 := by omega
    simp [parseOptField, serializeFilter, findField_append, findField_setEntry,
      findField_optEntry, hG, hs, parseU64Json, h2]

/-! ## Claim theorems -/

/-! ## Claim theorems -/

/-- C1 counterexample: under the key `#a` a 64-hex string naming a valid
public key is stored as the `Pubkey` variant, not kept as a `String`,
refuting the rule that values under letters other than `p`, `e`, `P`
stay strings. -/
theorem c1_counterexample :
    (deserializeFilter [("#a", Json.arr [Json.str pkHexStr])]).map
        (fun f => f.generic_tags ⟨.A, false⟩) =
      some (some {GenericTagValue.pubkey pk379}) ∧
      (deserializeFilter [("#a", Json.arr [Json.str pkHexStr])]).map
          (fun f => f.generic_tags ⟨.A, false⟩) ≠
        some (some {GenericTagValue.str pkHexStr}) := by
  constructor
  · decide
  · decide

/-- C1 amended: decoding stores values per letter as follows: under
lowercase `#p` only `Pubkey` values, under lowercase `#e` only `EventId`
values, under uppercase `#P` only `Pubkey` values; under every other
single-letter key values are stored as the untagged decoding produces
them, so a stored `String` value is never 64 hex characters (such strings
become `Pubkey` or `EventId` instead). -/
theorem c1_per_letter_coercion (fields : List (String × Json)) (f : Filter)
    (hd : deserializeFilter fields = some f) :
    ∀ t : SingleLetterTag, ∀ v ∈ (f.generic_tags t).getD ∅,
      (t = ⟨.P, false⟩ → v.isPubkey = true) ∧
      (t = ⟨.E, false⟩ → v.isEventId = true) ∧
      (t = ⟨.P, true⟩ → v.isPubkey = true) ∧
      ∀ s, v = .str s → decodeHex64 s = none := by
  have hex : ∃ gt, deserialize_generic_tags fields emptyTags = some gt ∧
      f.generic_tags = gt := by
    simp only [deserializeFilter, bind, Option.bind_eq_some] at hd
    obtain ⟨ids, _, hd⟩ := hd
    obtain ⟨authors, _, hd⟩ := hd
    obtain ⟨kinds, _, hd⟩ := hd
    obtain ⟨search, _, hd⟩ := hd
    obtain ⟨since, _, hd⟩ := hd
    obtain ⟨until2, _, hd⟩ := hd
    obtain ⟨limit, _, hd⟩ := hd
    obtain ⟨gt, hgt, hd⟩ := hd
    refine ⟨gt, hgt, ?_⟩
    have := (Option.some.injEq _ _).mp hd
    rw [← this]
  obtain ⟨gt, hgt, hfgt⟩ := hex
  have hinv : TagMapInv gt :=
    dgt_invariant fields emptyTags gt hgt (by intro t v hv; simp [emptyTags] at hv)
  intro t v hv
  rw [hfgt] at hv
  obtain ⟨hkept, hshape⟩ := hinv t v hv
  refine ⟨?_, ?_, ?_, hshape⟩ <;> intro ht <;> subst ht <;> simpa [keptBy] using hkept

/-- The filter with one valid `#p` public key, deserialized in the C1
witness. -/
def fC1 : Filter := Filter.new.custom_tag ⟨.P, false⟩ {.pubkey pk379}

/-- Witness for C1 at the object with one `#p` key holding the test
public key. -/
theorem c1_per_letter_coercion_witness :
    deserializeFilter [("#p", Json.arr [Json.str pkHexStr])] = some fC1 ∧
      ∀ t : SingleLetterTag, ∀ v ∈ (fC1.generic_tags t).getD ∅,
        (t = ⟨.P, false⟩ → v.isPubkey = true) ∧
        (t = ⟨.E, false⟩ → v.isEventId = true) ∧
        (t = ⟨.P, true⟩ → v.isPubkey = true) ∧
        ∀ s, v = .str s → decodeHex64 s = none :=
  ⟨by decide,
    c1_per_letter_coercion [("#p", Json.arr [Json.str pkHexStr])] fC1 (by decide)⟩

/-- C2 counterexample: the malformed key `#1` (two characters, `1` not a
letter) does not get dropped silently; `SingleLetterTag::from_char` fails
and the whole deserialization errors. -/
theorem c2_counterexample :
    deserializeFilter [("#1", Json.arr [Json.str "x"])] = none := by
  decide

/-- C2 amended: a key that is neither a fixed field nor exactly two
characters starting with `#` is dropped silently (it contributes nothing
to the result, whatever its value), but a two-character `#X` key whose
second character is not an ASCII letter makes deserialization fail instead
of being dropped. -/
theorem c2_unknown_keys_dropped :
    (∀ (k : String) (v : Json) (l1 l2 : List (String × Json)),
        isHashKey k = false → k ∉ fixedFieldNames →
        deserializeFilter (l1 ++ (k, v) :: l2) = deserializeFilter (l1 ++ l2)) ∧
      ∀ (c : Char) (v : Json) (l1 l2 : List (String × Json)), c.isAlpha = false →
        deserializeFilter (l1 ++ (⟨['#', c]⟩, v) :: l2) = none := by
  constructor
  · intro k v l1 l2 hk1 hk2
    have hne : ∀ name ∈ fixedFieldNames, k ≠ name := fun name hn he => hk2 (he ▸ hn)
    have hids := findField_middle "ids" k v l1 l2 (hne "ids" (by decide))
    have hauthors := findField_middle "authors" k v l1 l2 (hne "authors" (by decide))
    have hkinds := findField_middle "kinds" k v l1 l2 (hne "kinds" (by decide))
    have hsearch := findField_middle "search" k v l1 l2 (hne "search" (by decide))
    have hsince := findField_middle "since" k v l1 l2 (hne "since" (by decide))
    have huntil := findField_middle "until" k v l1 l2 (hne "until" (by decide))
    have hlimit := findField_middle "limit" k v l1 l2 (hne "limit" (by decide))
    have hdgt : ∀ m, deserialize_generic_tags (l1 ++ (k, v) :: l2) m =
        deserialize_generic_tags (l1 ++ l2) m := by
      intro m
      rw [dgt_append, dgt_append]
      cases deserialize_generic_tags l1 m with
      | none => rfl
      | some m2 =>
        simp only [deserialize_generic_tags, dgtStep_skip k v m2 hk1]
    simp only [deserializeFilter, parseSetField, parseOptField, hids, hauthors, hkinds,
      hsearch, hsince, huntil, hlimit, hdgt]
  · intro c v l1 l2 hc
    have hdgt : deserialize_generic_tags (l1 ++ (⟨['#', c]⟩, v) :: l2) emptyTags = none := by
      rw [dgt_append]
      cases deserialize_generic_tags l1 emptyTags with
      | none => rfl
      | some m2 =>
        have hstep : dgtStep ⟨['#', c]⟩ v m2 = none := by
          simp only [dgtStep, fromChar_eq_none_of_not_alpha c hc]
        simp only [deserialize_generic_tags, hstep]
    simp only [deserializeFilter, bind, hdgt]
    cases parseSetField "ids" parseEventIdJson (l1 ++ (⟨['#', c]⟩, v) :: l2) <;>
      cases parseSetField "authors" parsePubkeyJson (l1 ++ (⟨['#', c]⟩, v) :: l2) <;>
      cases parseSetField "kinds" parseKindJson (l1 ++ (⟨['#', c]⟩, v) :: l2) <;>
      cases parseOptField "search" parseStringJson (l1 ++ (⟨['#', c]⟩, v) :: l2) <;>
      cases parseOptField "since" parseU64Json (l1 ++ (⟨['#', c]⟩, v) :: l2) <;>
      cases parseOptField "until" parseU64Json (l1 ++ (⟨['#', c]⟩, v) :: l2) <;>
      cases parseOptField "limit" parseU64Json (l1 ++ (⟨['#', c]⟩, v) :: l2) <;>
      rfl

/-- Witness for C2: dropping the unknown key `aa` leaves only the search
field, and the malformed `#1` key errors, at concrete objects. -/
theorem c2_unknown_keys_dropped_witness :
    isHashKey "aa" = false ∧ "aa" ∉ fixedFieldNames ∧ ('1').isAlpha = false ∧
      deserializeFilter ([("search", Json.str "test")] ++ ("aa", Json.arr [Json.str "..."]) ::
          []) =
        deserializeFilter ([("search", Json.str "test")] ++ []) ∧
      deserializeFilter ([] ++ (⟨['#', '1']⟩, Json.arr [Json.str "x"]) :: []) = none :=
  ⟨by decide, by decide, by decide,
    c2_unknown_keys_dropped.1 "aa" (Json.arr [Json.str "..."]) [("search", Json.str "test")] []
      (by decide) (by decide),
    c2_unknown_keys_dropped.2 '1' (Json.arr [Json.str "x"]) [] [] (by decide)⟩

/-- C3 counterexample: after adding a custom `#c` tag and removing all its
values, the serialized object still contains the key `#c` with an empty
array, refuting the claim that empty generic-tag entries are omitted. -/
theorem c3_counterexample :
    findField "#c" (serializeFilter ((Filter.new.custom_tag ⟨.C, false⟩
        {.str "test"}).remove_custom_tag ⟨.C, false⟩ {.str "test"})) =
      some (Json.arr []) := by
  decide

/-- C3 amended: serialization omits empty fixed collections and unset
options (absent keys), but a present generic-tag entry is always emitted
under its `#X` key, together with its value array, even when the value set
is empty. -/
theorem c3_omits_empty (f : Filter) :
    (f.ids = ∅ → findField "ids" (serializeFilter f) = none) ∧
      (f.authors = ∅ → findField "authors" (serializeFilter f) = none) ∧
      (f.kinds = ∅ → findField "kinds" (serializeFilter f) = none) ∧
      (f.search = none → findField "search" (serializeFilter f) = none) ∧
      (f.since = none → findField "since" (serializeFilter f) = none) ∧
      (f.until' = none → findField "until" (serializeFilter f) = none) ∧
      (f.limit = none → findField "limit" (serializeFilter f) = none) ∧
      ∀ (t : SingleLetterTag) (vs : Finset GenericTagValue), f.generic_tags t = some vs →
        findField (tagKeyStr t) (serializeFilter f) = some (serializeTagValues vs) := by
  refine ⟨fun h => ?_, fun h => ?_, fun h => ?_, fun h => ?_, fun h => ?_, fun h => ?_,
    fun h => ?_, fun t vs h => ?_⟩
  · have hG := findField_sgt "ids" f.generic_tags (by decide)
    simp [serializeFilter, findField_append, findField_setEntry, findField_optEntry, hG, h]
  · have hG := findField_sgt "authors" f.generic_tags (by decide)
    simp [serializeFilter, findField_append, findField_setEntry, findField_optEntry, hG, h]
  · have hG := findField_sgt "kinds" f.generic_tags (by decide)
    simp [serializeFilter, findField_append, findField_setEntry, findField_optEntry, hG, h]
  · have hG := findField_sgt "search" f.generic_tags (by decide)
    simp [serializeFilter, findField_append, findField_setEntry, findField_optEntry, hG, h]
  · have hG := findField_sgt "since" f.generic_tags (by decide)
    simp [serializeFilter, findField_append, findField_setEntry, findField_optEntry, hG, h]
  · have hG := findField_sgt "until" f.generic_tags (by decide)
    simp [serializeFilter, findField_append, findField_setEntry, findField_optEntry, hG, h]
  · have hG := findField_sgt "limit" f.generic_tags (by decide)
    simp [serializeFilter, findField_append, findField_setEntry, findField_optEntry, hG, h]
  · have hne : ∀ name : String, name.length ≠ 2 → (name = tagKeyStr t) = False :=
      fun name hn => eq_false fun he => hn (by rw [he]; exact tagKeyStr_length t)
    have hG := findField_sgt_tag f.generic_tags t
    simp [serializeFilter, findField_append, findField_setEntry, findField_optEntry, hG, h,
      hne "ids" (by decide), hne "authors" (by decide), hne "kinds" (by decide),
      hne "search" (by decide), hne "since" (by decide), hne "until" (by decide),
      hne "limit" (by decide)]

/-- Witness for C3 at the add-then-remove filter: all fixed fields are
absent and the `#c` key is present with an empty array. -/
theorem c3_omits_empty_witness :
    ((Filter.new.custom_tag ⟨.C, false⟩ {.str "test"}).remove_custom_tag ⟨.C, false⟩
          {.str "test"}).ids = ∅ ∧
      findField "ids" (serializeFilter ((Filter.new.custom_tag ⟨.C, false⟩
          {.str "test"}).remove_custom_tag ⟨.C, false⟩ {.str "test"})) = none ∧
      ((Filter.new.custom_tag ⟨.C, false⟩ {.str "test"}).remove_custom_tag ⟨.C, false⟩
          {.str "test"}).generic_tags ⟨.C, false⟩ = some ∅ ∧
      findField (tagKeyStr ⟨.C, false⟩) (serializeFilter ((Filter.new.custom_tag ⟨.C, false⟩
          {.str "test"}).remove_custom_tag ⟨.C, false⟩ {.str "test"})) =
        some (serializeTagValues ∅) :=
  ⟨by decide,
    (c3_omits_empty _).1 (by decide),
    by decide,
    (c3_omits_empty _).2.2.2.2.2.2.2 ⟨.C, false⟩ ∅ (by decide)⟩

/-- C4 counterexample: the filter whose `#a` tag holds the `String` value
`pkHexStr` satisfies the per-letter coercions of the claim (values under
letters other than `p`, `e`, `P` are strings), yet the round trip turns
the value into the `Pubkey` variant, so the result differs from the
original filter. -/
theorem c4_counterexample :
    deserializeFilter (serializeFilter (Filter.new.custom_tag ⟨.A, false⟩ {.str pkHexStr})) =
        some (Filter.new.custom_tag ⟨.A, false⟩ {.pubkey pk379}) ∧
      deserializeFilter (serializeFilter (Filter.new.custom_tag ⟨.A, false⟩ {.str pkHexStr})) ≠
        some (Filter.new.custom_tag ⟨.A, false⟩ {.str pkHexStr}) := by
  constructor
  · decide
  · decide

/-- C4 amended: the round trip is the identity on every well-formed filter
whose generic-tag values are fixed points of the untagged decoding under
their tag's coercion (public keys under any letter, event ids whose hex
does not lift to a valid point, strings that are not 64 hex characters,
with the retained variants under `#p`, `#e`, `#P`): deserializing the
serialization of such a filter returns exactly the filter. -/
theorem c4_round_trip (f : Filter) (hwf : FilterWF f) (hfp : GenericTagsFixed f) :
    deserializeFilter (serializeFilter f) = some f := by
  obtain ⟨h1, h2, h3, h4, h5, h6⟩ := hwf
  have hids := parse_ids_serialize f h1
  have hauthors := parse_authors_serialize f h2
  have hkinds := parse_kinds_serialize f h3
  have hsearch := parse_search_serialize f
  have hsince := parse_since_serialize f h4
  have huntil := parse_until_serialize f h5
  have hlimit := parse_limit_serialize f h6
  have hgt := dgt_serialize f hfp
  simp only [deserializeFilter, hids, hauthors, hkinds, hsearch, hsince, huntil, hlimit,
    hgt, Option.bind_eq_bind, Option.some_bind]
  rfl

/-- Witness for C4 at the filter of scenario S1 (search text, one id,
`#a` strings, `#p` public key): it is well-formed, its values are fixed
points, and the round trip returns it unchanged. -/
theorem c4_round_trip_witness :
    FilterWF filterS1 ∧ GenericTagsFixed filterS1 ∧
      deserializeFilter (serializeFilter filterS1) = some filterS1 :=
  ⟨by decide, by decide, c4_round_trip filterS1 (by decide) (by decide)⟩

/-- C6: the base retry delay always satisfies `retry_sec ≥ MIN_RETRY_SEC = 5`
with default 10: the default stores 10, the `retry_sec` builder leaves a
stored value of at least 5 for any input, and `update_retry_sec` with a
value below 5 leaves the options unchanged, so `get_retry_sec ≥ 5` is
preserved by every `RelayOptions` operation. -/
theorem c6_retry_sec_invariant :
    MIN_RETRY_SEC = 5 ∧ RelayOptions.new.get_retry_sec = 10 ∧
      (∀ (o : RelayOptions) (v : Nat), 5 ≤ (o.retry_sec' v).get_retry_sec) ∧
      (∀ (o : RelayOptions) (v : Nat), v < 5 → o.update_retry_sec v = o) ∧
      (∀ (o : RelayOptions) (v : Nat),
        5 ≤ o.get_retry_sec → 5 ≤ (o.update_retry_sec v).get_retry_sec) := by
  refine ⟨rfl, rfl, ?_, ?_, ?_⟩
  · intro o v
    simp only [RelayOptions.retry_sec', RelayOptions.get_retry_sec, MIN_RETRY_SEC,
      DEFAULT_RETRY_SEC]
    split <;> omega
  · intro o v hv
    simp only [RelayOptions.update_retry_sec, MIN_RETRY_SEC]
    split <;> [omega; rfl]
  · intro o v ho
    simp only [RelayOptions.update_retry_sec, RelayOptions.get_retry_sec, MIN_RETRY_SEC] at *
    split <;> simp_all

/-- Witness for C6 at concrete inputs: the builder with 3 falls back to 10,
an update with 3 is rejected, and an update with 7 keeps the invariant. -/
theorem c6_retry_sec_invariant_witness :
    (3 : Nat) < 5 ∧ RelayOptions.new.update_retry_sec 3 = RelayOptions.new ∧
      5 ≤ (RelayOptions.new.retry_sec' 3).get_retry_sec ∧
      5 ≤ (RelayOptions.new.update_retry_sec 7).get_retry_sec :=
  ⟨by decide, c6_retry_sec_invariant.2.2.2.1 RelayOptions.new 3 (by decide),
    c6_retry_sec_invariant.2.2.1 RelayOptions.new 3,
    c6_retry_sec_invariant.2.2.2.2 RelayOptions.new 7 (by decide)⟩

/-- C9: removing all values of a custom tag keeps the key mapped to the
empty set, so the result differs from `Filter::new` and `is_empty` returns
false even though the filter constrains nothing. -/
theorem c9_remove_keeps_key (t : SingleLetterTag) (vs : Finset GenericTagValue)
    (hvs : vs ≠ ∅) :
    ((Filter.new.custom_tag t vs).remove_custom_tag t vs).generic_tags t = some ∅ ∧
      (Filter.new.custom_tag t vs).remove_custom_tag t vs ≠ Filter.new ∧
      ((Filter.new.custom_tag t vs).remove_custom_tag t vs).is_empty = false := by
  have h1 : (Filter.new.custom_tag t vs).generic_tags t = some vs := by
    simp [Filter.custom_tag, Filter.new]
  have hgt : ((Filter.new.custom_tag t vs).remove_custom_tag t vs).generic_tags t = some ∅ := by
    simp only [Filter.remove_custom_tag]
    rw [if_true, h1, Option.map_some']
    congr 1
    exact Finset.filter_false_of_mem (fun v hv => by simp [hv])
  have hne : (Filter.new.custom_tag t vs).remove_custom_tag t vs ≠ Filter.new := by
    intro h
    have h2 : ((Filter.new.custom_tag t vs).remove_custom_tag t vs).generic_tags t =
        Filter.new.generic_tags t := by rw [h]
    rw [hgt] at h2
    simp [Filter.new] at h2
  exact ⟨hgt, hne, by simp [Filter.is_empty, hne]⟩

/-- Witness for C9 with the lowercase `c` tag and one string value, the
shape of the repository's `remove_custom_tag` test. -/
theorem c9_remove_keeps_key_witness :
    ({GenericTagValue.str "test"} : Finset GenericTagValue) ≠ ∅ ∧
      ((Filter.new.custom_tag ⟨.C, false⟩ {.str "test"}).remove_custom_tag ⟨.C, false⟩
          {.str "test"}).generic_tags ⟨.C, false⟩ = some ∅ ∧
      ((Filter.new.custom_tag ⟨.C, false⟩ {.str "test"}).remove_custom_tag ⟨.C, false⟩
          {.str "test"}).is_empty = false :=
  ⟨by decide, (c9_remove_keeps_key ⟨.C, false⟩ {.str "test"} (by decide)).1,
    (c9_remove_keeps_key ⟨.C, false⟩ {.str "test"} (by decide)).2.2⟩

/-- C7: kind accumulation has set semantics: any sequence of `kind`/`kinds`
builder calls equals a single `kinds` call with all supplied kinds, whose
field is the set union, so duplicates and insertion order cannot matter;
in particular the concrete merge of scenario S4 holds. -/
theorem c7_kinds_set_semantics :
    (∀ (f : Filter) (ops : List KindOp), applyKindOps f ops = f.kinds' (flatKinds ops)) ∧
      ((((Filter.new.kind 0).kind 1).kinds' [4, 0, 30023]) =
        Filter.new.kinds' [0, 1, 4, 30023]) := by
  constructor
  · intro f ops
    induction ops generalizing f with
    | nil =>
      rcases f with ⟨ids, authors, kinds, search, since, until', limit, gt⟩
      simp [applyKindOps, flatKinds, Filter.kinds']
    | cons op ops ih =>
      cases op with
      | one k =>
        rw [applyKindOps, ih, flatKinds]
        rcases f with ⟨ids, authors, kinds, search, since, until', limit, gt⟩
        simp only [Filter.kind, Filter.kinds', Filter.mk.injEq, and_true, true_and]
        ext x
        simp only [Finset.mem_union, Finset.mem_insert, List.mem_toFinset, List.mem_cons]
        tauto
      | many ks =>
        rw [applyKindOps, ih, flatKinds]
        rcases f with ⟨ids, authors, kinds, search, since, until', limit, gt⟩
        simp only [Filter.kinds', Filter.mk.injEq, and_true, true_and]
        ext x
        simp only [Finset.mem_union, List.mem_toFinset, List.mem_append]
        tauto
  · decide

/-- C5: the repository's coordinate string with kind 30023, the test
public key and identifier `my-article` parses to exactly that coordinate,
and converting any coordinate to a filter yields the kind, the author, and
(exactly when the identifier is non-empty) the `#d` value set, with every
other filter field untouched. -/
theorem c5_coordinate_parse_to_filter :
    Coordinate.fromStr ("30023:" ++ pkHexStr ++ ":my-article") =
        .ok ⟨30023, pk379, "my-article", []⟩ ∧
      ∀ c : Coordinate,
        c.toFilter.kinds = {c.kind} ∧ c.toFilter.authors = {c.pubkey} ∧
          c.toFilter.ids = ∅ ∧ c.toFilter.search = none ∧ c.toFilter.since = none ∧
          c.toFilter.until' = none ∧ c.toFilter.limit = none ∧
          ∀ t : SingleLetterTag,
            c.toFilter.generic_tags t =
              if t = ⟨.D, false⟩ ∧ c.identifier ≠ "" then some {.str c.identifier}
              else none := by
  constructor
  · decide
  · intro c
    unfold Coordinate.toFilter
    by_cases hid : c.identifier = ""
    · rw [if_pos hid]
      refine ⟨?_, ?_, ?_, ?_, ?_, ?_, ?_, ?_⟩ <;>
        try simp [Filter.kind, Filter.author, Filter.new]
      intro t
      simp [Filter.kind, Filter.author, Filter.new, hid]
    · rw [if_neg hid]
      refine ⟨?_, ?_, ?_, ?_, ?_, ?_, ?_, ?_⟩ <;>
        try simp [Filter.identifier, Filter.custom_tag, Filter.kind, Filter.author, Filter.new]
      intro t
      by_cases ht : t = ⟨.D, false⟩ <;>
        simp [ht, hid, Filter.identifier, Filter.custom_tag, Filter.kind, Filter.author,
          Filter.new]

/-- C10: `Coordinate::from_str` splits on `:` and consumes only the first
three segments: with at least three segments whose first parses as a kind
and second as a public key, parsing succeeds with the third segment as the
identifier and all later segments discarded; with fewer than three
segments it fails with `InvalidCoordinate`. -/
theorem c10_coordinate_split :
    (∀ (s : String) (kindStr pubkeyStr idf : String) (rest : List String),
        splitColon s = kindStr :: pubkeyStr :: idf :: rest →
        ∀ k, parseKindStr kindStr = some k →
        ∀ pk, parsePubkeyStr pubkeyStr = some pk →
        Coordinate.fromStr s = .ok ⟨k, pk, idf, []⟩) ∧
      ∀ s : String, (splitColon s).length < 3 →
        Coordinate.fromStr s = .error .invalidCoordinate := by
  constructor
  · intro s kindStr pubkeyStr idf rest hsplit k hk pk hpk
    unfold Coordinate.fromStr
    rw [hsplit]
    simp only [hk, hpk]
  · intro s hlen
    unfold Coordinate.fromStr
    rcases hsplit : splitColon s with _ | ⟨a, _ | ⟨b, _ | ⟨c, d⟩⟩⟩
    · rfl
    · rfl
    · rfl
    · exfalso
      rw [hsplit] at hlen
      simp only [List.length_cons] at hlen
      omega

/-- Witness for C10: a four-segment input parses with identifier `a` and
the trailing segment `b` discarded, while a colon-free input is rejected. -/
theorem c10_coordinate_split_witness :
    Coordinate.fromStr ("1:" ++ pkHexStr ++ ":a:b") = .ok ⟨1, pk379, "a", []⟩ ∧
      Coordinate.fromStr "no-colons" = .error .invalidCoordinate :=
  ⟨c10_coordinate_split.1 _ "1" pkHexStr "a" ["b"] (by decide) 1 (by decide) pk379 (by decide),
    c10_coordinate_split.2 "no-colons" (by decide)⟩

/-- C8 counterexample: `SubscriptionId::new` enforces no length bound, so
a 65-character id refutes the claim that every subscription id has at most
64 characters. -/
theorem c8_counterexample :
    ¬ (SubscriptionId.new ⟨List.replicate 65 'x'⟩).val.length ≤ 64 := by
  decide

/-- C8 amended: `SubscriptionId::new` itself imposes no length bound, but
the random generator draws 32 bytes (at least 128 bits of entropy), hashes
them with SHA-256 and keeps the first 32 hex characters, so every generated
id has length 32 (within the 64-character protocol bound) and is lowercase
hex. -/
theorem c8_generated_id (osRandom : List Nat) (hlen : osRandom.length = 32)
    (hbytes : ∀ b ∈ osRandom, b < 256) :
    (SubscriptionId.generate_with_rng osRandom).val.length = 32 ∧
      ∀ c ∈ (SubscriptionId.generate_with_rng osRandom).val.data, c ∈ hexDigits := by
  constructor
  · show ((hexOfBytes (sha256 osRandom)).data.take 32).length = 32
    rw [List.length_take]
    have h1 := hexOfBytes_length (sha256 osRandom)
    rw [sha256_length] at h1
    have h2 : (hexOfBytes (sha256 osRandom)).length =
        (hexOfBytes (sha256 osRandom)).data.length := rfl
    omega
  · intro c hc
    have hc' : c ∈ (hexOfBytes (sha256 osRandom)).data := by
      have : ((hexOfBytes (sha256 osRandom)).data.take 32) ⊆
          (hexOfBytes (sha256 osRandom)).data := List.take_subset _ _
      exact this hc
    exact mem_hexOfBytes_hexDigits _ c hc'

/-- Witness for C8 at the all-zero RNG output: 32 bytes below 256, and the
generated id has 32 lowercase hex characters. -/
theorem c8_generated_id_witness :
    (List.replicate 32 0).length = 32 ∧ (∀ b ∈ List.replicate 32 (0 : Nat), b < 256) ∧
      (SubscriptionId.generate_with_rng (List.replicate 32 0)).val.length = 32 ∧
      ∀ c ∈ (SubscriptionId.generate_with_rng (List.replicate 32 0)).val.data, c ∈ hexDigits :=
  ⟨by decide, by decide,
    (c8_generated_id (List.replicate 32 0) (by decide) (by decide)).1,
    (c8_generated_id (List.replicate 32 0) (by decide) (by decide)).2⟩

end Nostr
